import Mathlib

/-!
Verification of the `dcc` local-archive core (`src/dcc/records.py`) against its
natural-language specification.

The Python code is shallowly embedded: Python strings are modelled as `List Char`
(for the parts that are parsed character by character) or `String` (opaque
payloads), Python ints as `Nat`/`Int`, `None`-able values as `Option`, raising
code as `Except`, and the filesystem as an explicit association list from paths
to byte contents.  Each definition is translated from the corresponding
function in the source.
-/

set_option autoImplicit false

/-- Python strings that we inspect character by character. -/
abbrev Str := List Char

/-- Numeric value of an ASCII digit character (`ord(c) - ord('0')`). -/
def charVal (c : Char) : Nat := c.toNat - 48

/-- The decimal digit character for `d < 10`; models Python's rendering of a
single digit. -/
def digitChar (d : Nat) : Char :=
  match d with
  | 0 => '0' | 1 => '1' | 2 => '2' | 3 => '3' | 4 => '4'
  | 5 => '5' | 6 => '6' | 7 => '7' | 8 => '8' | _ => '9'

/-- Decimal rendering of a natural number; models Python's `str(int)` (no sign,
no leading zeros). -/
def natToDigits (n : Nat) : Str :=
  if h : n < 10 then [digitChar n]
  else natToDigits (n / 10) ++ [digitChar (n % 10)]
decreasing_by exact Nat.div_lt_self (by omega) (by omega)

/-- Numeric value of a digit string; models Python's `int(s)` on an all-digit
string. -/
def digitsToNat (s : Str) : Nat :=
  s.foldl (fun a c => 10 * a + charVal c) 0

/-- Python's `str.isdigit` for the ASCII digit strings this program handles:
true iff the string is non-empty and all characters are digits. -/
def pyIsDigitStr (s : Str) : Bool :=
  !s.isEmpty && s.all Char.isDigit

theorem charVal_digitChar {d : Nat} (h : d < 10) : charVal (digitChar d) = d := by
  interval_cases d <;> rfl

theorem isDigit_digitChar {d : Nat} (h : d < 10) : (digitChar d).isDigit = true := by
  interval_cases d <;> rfl

theorem natToDigits_ne_nil (n : Nat) : natToDigits n ≠ [] := by
  rw [natToDigits]
  split <;> simp

theorem natToDigits_all_digit (n : Nat) : ∀ c ∈ natToDigits n, c.isDigit = true := by
  induction n using Nat.strong_induction_on with
  | _ n ih =>
    rw [natToDigits]
    split
    · next h =>
      intro c hc
      simp only [List.mem_singleton] at hc
      subst hc
      exact isDigit_digitChar h
    · next h =>
      intro c hc
      rw [List.mem_append] at hc
      rcases hc with hc | hc
      · exact ih (n / 10) (Nat.div_lt_self (by omega) (by omega)) c hc
      · simp only [List.mem_singleton] at hc
        subst hc
        exact isDigit_digitChar (Nat.mod_lt _ (by omega))

theorem digitsToNat_append_digit (l : Str) (c : Char) :
    digitsToNat (l ++ [c]) = 10 * digitsToNat l + charVal c := by
  simp [digitsToNat, List.foldl_append]

theorem digitsToNat_natToDigits (n : Nat) : digitsToNat (natToDigits n) = n := by
  induction n using Nat.strong_induction_on with
  | _ n ih =>
    rw [natToDigits]
    split
    · next h =>
      simp [digitsToNat, charVal_digitChar h]
    · next h =>
      rw [digitsToNat_append_digit, ih (n / 10) (Nat.div_lt_self (by omega) (by omega)),
        charVal_digitChar (Nat.mod_lt _ (by omega))]
      omega

theorem ne_of_isDigit_of_not_isDigit {c c' : Char} (h : c.isDigit = true)
    (h' : c'.isDigit = false) : c ≠ c' := by
  intro heq
  rw [heq, h'] at h
  exact Bool.false_ne_true h

/-- Python `str.index` for a single character: index of the first occurrence,
or absent (`ValueError` in Python, caught by the caller). -/
def indexOfChar (c : Char) : Str → Option Nat
  | [] => none
  | x :: xs => if x = c then some 0 else (indexOfChar c xs).map (· + 1)

theorem indexOfChar_eq_none {c : Char} {s : Str} (h : ∀ x ∈ s, x ≠ c) :
    indexOfChar c s = none := by
  induction s with
  | nil => rfl
  | cons x xs ih =>
    simp only [indexOfChar]
    rw [if_neg (h x (by simp)), ih (fun y hy => h y (by simp [hy]))]
    rfl

theorem indexOfChar_append (c : Char) (l r : Str) (h : ∀ x ∈ l, x ≠ c) :
    indexOfChar c (l ++ c :: r) = some l.length := by
  induction l with
  | nil => simp [indexOfChar]
  | cons x xs ih =>
    simp only [List.cons_append, indexOfChar]
    rw [if_neg (h x (by simp)), List.append_eq, ih (fun y hy => h y (by simp [hy]))]
    rfl

/-- Strip one leading `"LIGO-"` from a DCC number string, as done in
`DCCNumber.__init__`. -/
def stripLIGO (s : Str) : Str :=
  match s with
  | 'L' :: 'I' :: 'G' :: 'O' :: '-' :: rest => rest
  | _ => s

theorem stripLIGO_eq_self {c c2 : Char} {rest : Str} (h : c2.isDigit = true) :
    stripLIGO (c :: c2 :: rest) = c :: c2 :: rest := by
  unfold stripLIGO
  split
  · next heq =>
    injection heq with h1 h2
    injection h2 with h2 _
    exact absurd (h2 ▸ h) (by decide)
  · rfl

/-- The DCC document-type designators (keys of
`DCCNumber.document_type_letters`). -/
def letters : List Char := ['A', 'C', 'D', 'E', 'F', 'G', 'L', 'M', 'P', 'Q', 'R', 'S', 'T', 'X']

/-- A DCC number: category letter, numeric string (identity-preserving) and
optional version, mirroring the `DCCNumber` dataclass. -/
structure DCCNumber where
  category : Char
  numeric : Str
  version : Option Nat
deriving DecidableEq, Repr

/-- The validation performed at the end of `DCCNumber.__init__`: category must
be a known letter, the numeric part an all-digit string; `version` is threaded
through as a pending check so errors are reported in the source's order. -/
def checkNumberParts (category : Char) (numeric : Str)
    (version : Except String (Option Nat)) : Except String DCCNumber :=
  if category ∉ letters then .error "ValueError: category is invalid"
  else if ¬ pyIsDigitStr numeric then .error "ValueError: number is invalid"
  else
    match version with
    | .error e => .error e
    | .ok v => .ok ⟨category, numeric, v⟩

/-- Validation of a version suffix taken from the string form
(`str(version).isdigit()` then `int(version)`). -/
def parseVersionStr (vs : Str) : Except String (Option Nat) :=
  if pyIsDigitStr vs then .ok (some (digitsToNat vs)) else .error "ValueError: version is invalid"

/-- Validation of a version passed as an integer argument
(`str(version).isdigit()` rejects negatives). -/
def checkVersionArg (v : Option Int) : Except String (Option Nat) :=
  match v with
  | none => .ok none
  | some i => if 0 ≤ i then .ok (some i.toNat) else .error "ValueError: version is invalid"

/-- `DCCNumber.__init__` when called with a single string (plus an optional
`version` argument): strip `"LIGO-"`, split at the first hyphen, and validate
category, numeric and version.  A version suffix in the string wins over the
`version` argument. -/
def DCCNumber.fromString (s0 : Str) (versionArg : Option Int) : Except String DCCNumber :=
  if s0.length < 2 then .error "ValueError: invalid DCC number"
  else
    let s := stripLIGO s0
    match s with
    | [] => .error "IndexError: string index out of range"
    | c :: _ =>
      match indexOfChar '-' s with
      | some h =>
        checkNumberParts c ((s.drop 1).take (h - 1)) (parseVersionStr (s.drop (h + 2)))
      | none =>
        checkNumberParts c (s.drop 1) (checkVersionArg versionArg)

/-- `DCCNumber.version_suffix`: `""` for no version, `"-x0"` for version 0,
`"-vN"` for version N > 0. -/
def DCCNumber.versionSuffix (d : DCCNumber) : Str :=
  match d.version with
  | none => []
  | some 0 => ['-', 'x', '0']
  | some v => '-' :: 'v' :: natToDigits v

/-- `DCCNumber.format`: the canonical string, with or without the version
suffix. -/
def DCCNumber.format (d : DCCNumber) (withVersion : Bool) : Str :=
  d.category :: (d.numeric ++ (if withVersion then d.versionSuffix else []))

/-- Invariant guaranteed by `DCCNumber.__init__` validation: known category
letter, non-empty all-digit numeric part. -/
def DCCNumber.valid (d : DCCNumber) : Prop :=
  d.category ∈ letters ∧ pyIsDigitStr d.numeric = true

instance (d : DCCNumber) : Decidable d.valid := by
  unfold DCCNumber.valid
  infer_instance

/-- Result of a Python rich-comparison method: a boolean or `NotImplemented`. -/
inductive PyCmp where
  | bool (b : Bool)
  | notImpl
deriving DecidableEq, Repr

/-- `DCCNumber.__eq__`: all three fields equal. -/
def DCCNumber.eqMethod (a b : DCCNumber) : Bool :=
  (a.category == b.category) && (a.numeric == b.numeric) && (a.version == b.version)

/-- `DCCNumber.__gt__`: `NotImplemented` when either version is absent,
otherwise `all((category equal, numeric equal, version greater))`. -/
def DCCNumber.gtMethod (a b : DCCNumber) : PyCmp :=
  match a.version, b.version with
  | some va, some vb =>
    .bool ((a.category == b.category) && (a.numeric == b.numeric) && decide (va > vb))
  | _, _ => .notImpl

/-- The `__lt__` generated by `functools.total_ordering` from `__gt__`:
`not (a > b) and a != b`, propagating `NotImplemented`. -/
def DCCNumber.ltDerived (a b : DCCNumber) : PyCmp :=
  match a.gtMethod b with
  | .notImpl => .notImpl
  | .bool r => .bool (!r && !(a.eqMethod b))

/-- CPython's evaluation of the expression `a > b`: try `a.__gt__(b)`, then the
reflected `b.__lt__(a)`, and raise `TypeError` if both return
`NotImplemented`. -/
def pyGreaterThan (a b : DCCNumber) : Except String Bool :=
  match a.gtMethod b with
  | .bool r => .ok r
  | .notImpl =>
    match b.ltDerived a with
    | .bool r => .ok r
    | .notImpl => .error "TypeError: not supported between instances"

theorem pyIsDigitStr_ne_nil {s : Str} (h : pyIsDigitStr s = true) : s ≠ [] := by
  intro heq
  rw [heq] at h
  exact absurd h (by decide)

theorem pyIsDigitStr_all {s : Str} (h : pyIsDigitStr s = true) :
    ∀ c ∈ s, c.isDigit = true := by
  intro c hc
  unfold pyIsDigitStr at h
  rw [Bool.and_eq_true, List.all_eq_true] at h
  exact h.2 c hc

theorem pyIsDigitStr_intro {s : Str} (hne : s ≠ []) (hall : ∀ c ∈ s, c.isDigit = true) :
    pyIsDigitStr s = true := by
  cases s with
  | nil => exact absurd rfl hne
  | cons x xs =>
    unfold pyIsDigitStr
    rw [Bool.and_eq_true, List.all_eq_true]
    exact ⟨rfl, hall⟩

theorem letters_ne_hyphen : ∀ c ∈ letters, c ≠ '-' := by decide

theorem fromString_noversion (c : Char) (numeric : Str)
    (hc : c ∈ letters) (hn : pyIsDigitStr numeric = true) :
    DCCNumber.fromString (c :: numeric) none = .ok ⟨c, numeric, none⟩ := by
  have hdig := pyIsDigitStr_all hn
  obtain ⟨n1, ntail, rfl⟩ := List.exists_cons_of_ne_nil (pyIsDigitStr_ne_nil hn)
  have hlen : ¬ (c :: n1 :: ntail : Str).length < 2 := by
    simp [List.length_cons]
  unfold DCCNumber.fromString
  rw [if_neg hlen]
  simp only
  rw [stripLIGO_eq_self (hdig n1 (by simp))]
  have hnone : indexOfChar '-' (c :: n1 :: ntail) = none := by
    apply indexOfChar_eq_none
    intro x hx
    rcases List.mem_cons.mp hx with rfl | hx
    · exact letters_ne_hyphen _ hc
    · exact ne_of_isDigit_of_not_isDigit (hdig x hx) (by decide)
  rw [hnone]
  simp only [List.drop_succ_cons, List.drop_zero, checkNumberParts, checkVersionArg]
  rw [if_neg (not_not_intro hc), if_neg (not_not_intro hn)]

theorem fromString_hyphen (c w : Char) (numeric digs : Str)
    (hc : c ∈ letters) (hn : pyIsDigitStr numeric = true)
    (hd : pyIsDigitStr digs = true) :
    DCCNumber.fromString (c :: (numeric ++ '-' :: w :: digs)) none
      = .ok ⟨c, numeric, some (digitsToNat digs)⟩ := by
  have hdig := pyIsDigitStr_all hn
  obtain ⟨n1, ntail, rfl⟩ := List.exists_cons_of_ne_nil (pyIsDigitStr_ne_nil hn)
  have hlen : ¬ (c :: ((n1 :: ntail) ++ '-' :: w :: digs) : Str).length < 2 := by
    simp [List.length_cons]
  unfold DCCNumber.fromString
  rw [if_neg hlen]
  simp only [List.cons_append]
  rw [stripLIGO_eq_self (hdig n1 (by simp))]
  have hmid : indexOfChar '-' (ntail ++ '-' :: w :: digs) = some ntail.length :=
    indexOfChar_append '-' ntail (w :: digs)
      (fun x hx => ne_of_isDigit_of_not_isDigit (hdig x (by simp [hx])) (by decide))
  have hidx : indexOfChar '-' (c :: n1 :: (ntail ++ '-' :: w :: digs))
      = some (ntail.length + 2) := by
    rw [show indexOfChar '-' (c :: n1 :: (ntail ++ '-' :: w :: digs))
        = (if c = '-' then some 0
           else (indexOfChar '-' (n1 :: (ntail ++ '-' :: w :: digs))).map (· + 1)) from rfl,
      if_neg (letters_ne_hyphen _ hc),
      show indexOfChar '-' (n1 :: (ntail ++ '-' :: w :: digs))
        = (if n1 = '-' then some 0
           else (indexOfChar '-' (ntail ++ '-' :: w :: digs)).map (· + 1)) from rfl,
      if_neg (ne_of_isDigit_of_not_isDigit (hdig n1 (by simp)) (by decide)), hmid]
    rfl
  rw [hidx]
  have htake : ((c :: n1 :: (ntail ++ '-' :: w :: digs) : Str).drop 1).take
      (ntail.length + 2 - 1) = n1 :: ntail := by
    simp only [List.drop_succ_cons, List.drop_zero,
      show ntail.length + 2 - 1 = ntail.length + 1 by omega, List.take_succ_cons]
    rw [List.take_left ntail]
  have hdrop : (c :: n1 :: (ntail ++ '-' :: w :: digs) : Str).drop
      (ntail.length + 2 + 2) = digs := by
    rw [show ntail.length + 2 + 2 = (ntail.length + 2) + 1 + 1 by omega]
    simp only [List.drop_succ_cons]
    rw [List.drop_append 2]
    rfl
  show checkNumberParts c
      (List.take (ntail.length + 2 - 1) (List.drop 1 (c :: n1 :: (ntail ++ '-' :: w :: digs))))
      (parseVersionStr (List.drop (ntail.length + 2 + 2) (c :: n1 :: (ntail ++ '-' :: w :: digs))))
    = Except.ok ⟨c, n1 :: ntail, some (digitsToNat digs)⟩
  rw [htake, hdrop, parseVersionStr, if_pos hd]
  simp only [checkNumberParts]
  rw [if_neg (not_not_intro hc), if_neg (not_not_intro hn)]

/-- C7: for every canonical string `S` produced by `format` with the version
included, `DCCNumber(S)` parses back to the same number (so formatting it again
yields `S`), and the version suffix is `""` for no version, `"-x0"` for
version 0 and `"-vN"` for version `N > 0`. -/
theorem C7_parse_format_roundtrip (d : DCCNumber) (h : d.valid) :
    DCCNumber.fromString (d.format true) none = .ok d ∧
    (d.version = none → d.format true = d.category :: d.numeric) ∧
    (d.version = some 0 → d.format true = d.category :: (d.numeric ++ ['-', 'x', '0'])) ∧
    (∀ n, d.version = some n → 0 < n →
      d.format true = d.category :: (d.numeric ++ '-' :: 'v' :: natToDigits n)) := by
  obtain ⟨c, numeric, ver⟩ := d
  obtain ⟨hc, hn⟩ := h
  refine ⟨?_, ?_, ?_, ?_⟩
  · match ver with
    | none =>
      simp only [DCCNumber.format, DCCNumber.versionSuffix, if_pos, List.append_nil]
      exact fromString_noversion c numeric hc hn
    | some 0 =>
      have : (⟨c, numeric, some 0⟩ : DCCNumber).format true
          = c :: (numeric ++ '-' :: 'x' :: ['0']) := rfl
      rw [this, fromString_hyphen c 'x' numeric ['0'] hc hn (by decide)]
      rfl
    | some (v + 1) =>
      have hfmt : (⟨c, numeric, some (v + 1)⟩ : DCCNumber).format true
          = c :: (numeric ++ '-' :: 'v' :: natToDigits (v + 1)) := rfl
      rw [hfmt, fromString_hyphen c 'v' numeric (natToDigits (v + 1)) hc hn
        (pyIsDigitStr_intro (natToDigits_ne_nil _) (natToDigits_all_digit _)),
        digitsToNat_natToDigits]
  · intro hv
    simp only at hv
    subst hv
    simp [DCCNumber.format, DCCNumber.versionSuffix]
  · intro hv
    simp only at hv
    subst hv
    rfl
  · intro n hv hpos
    simp only at hv
    subst hv
    match n, hpos with
    | n + 1, _ => rfl

/-- C7 witness: the round trip evaluated at `T12345-v2`. -/
theorem C7_witness :
    DCCNumber.fromString ((⟨'T', ['1', '2', '3', '4', '5'], some 2⟩ : DCCNumber).format true)
      none = .ok ⟨'T', ['1', '2', '3', '4', '5'], some 2⟩ :=
  (C7_parse_format_roundtrip ⟨'T', ['1', '2', '3', '4', '5'], some 2⟩ (by decide)).1

/-- C6 counterexample: ordering `M1-v1 > T1-v1` (mismatched category, both
versions present) is silently resolved to the boolean `False` instead of being
rejected with an error, contradicting the claim. -/
theorem C6_counterexample :
    pyGreaterThan ⟨'M', ['1'], some 1⟩ ⟨'T', ['1'], some 1⟩ = .ok false := by
  rfl

/-- C6 (amended): `>` returns `va > vb` when category and numeric match and
both versions are present (in particular `T12345-v2 > T12345-v1 > T12345-x0`);
an absent version on either side is rejected with a `TypeError`; but a
mismatched category or numeric with both versions present silently yields
`False` rather than an error. -/
theorem C6_ordering (a b : DCCNumber) :
    (∀ va vb, a.version = some va → b.version = some vb →
      a.category = b.category → a.numeric = b.numeric →
      pyGreaterThan a b = .ok (decide (va > vb))) ∧
    (a.version = none ∨ b.version = none →
      pyGreaterThan a b = .error "TypeError: not supported between instances") ∧
    (∀ va vb, a.version = some va → b.version = some vb →
      ¬(a.category = b.category ∧ a.numeric = b.numeric) →
      pyGreaterThan a b = .ok false) ∧
    pyGreaterThan ⟨'T', ['1', '2', '3', '4', '5'], some 2⟩
      ⟨'T', ['1', '2', '3', '4', '5'], some 1⟩ = .ok true ∧
    pyGreaterThan ⟨'T', ['1', '2', '3', '4', '5'], some 1⟩
      ⟨'T', ['1', '2', '3', '4', '5'], some 0⟩ = .ok true := by
  obtain ⟨ac, an, av⟩ := a
  obtain ⟨bc, bn, bv⟩ := b
  refine ⟨?_, ?_, ?_, by rfl, by rfl⟩
  · intro va vb hva hvb hcat hnum
    simp only at hva hvb hcat hnum
    subst hva; subst hvb; subst hcat; subst hnum
    simp [pyGreaterThan, DCCNumber.gtMethod]
  · intro hnone
    cases av with
    | none => cases bv <;> rfl
    | some va =>
      cases bv with
      | none => rfl
      | some vb =>
        exfalso
        rcases hnone with h | h <;> simp at h
  · intro va vb hva hvb hmis
    simp only at hva hvb
    subst hva; subst hvb
    have hfalse : ((ac == bc) && (an == bn) && decide (va > vb)) = false := by
      rcases not_and_or.mp hmis with hne | hne <;>
        simp [beq_eq_false_iff_ne.mpr hne]
    simp [pyGreaterThan, DCCNumber.gtMethod, hfalse]

/-- C6 witness: the amended ordering theorem applied to `T1-v2 > T1-v1`. -/
theorem C6_witness :
    pyGreaterThan ⟨'T', ['1'], some 2⟩ ⟨'T', ['1'], some 1⟩ = .ok (decide (2 > 1)) :=
  (C6_ordering ⟨'T', ['1'], some 2⟩ ⟨'T', ['1'], some 1⟩).1 2 1 rfl rfl rfl rfl

/-- Python's `str.strip()` on a character list: drop leading and trailing
whitespace. -/
def pyStripList (s : Str) : Str :=
  ((s.dropWhile Char.isWhitespace).reverse.dropWhile Char.isWhitespace).reverse

/-- Python's `str.strip()` on an opaque string. -/
def pyStrip (s : String) : String :=
  ⟨pyStripList s.toList⟩

/-- The `DCCAuthor` dataclass. -/
structure DCCAuthor where
  name : String
  uid : Option Int
deriving DecidableEq, Repr

/-- The `DCCJournalRef` dataclass. -/
structure DCCJournalRef where
  journal : String
  volume : Int
  page : String
  citation : String
  url : Option String
deriving DecidableEq, Repr

/-- The `DCCFile` dataclass: `local_path` is derived state, never persisted. -/
structure DCCFile where
  title : String
  filename : String
  url : String
  local_path : Option String
deriving DecidableEq, Repr

/-- `DCCFile` construction (`__init__` plus `__post_init__`): title and
filename are stripped, `local_path` starts unset. -/
def mkDCCFile (title filename url : String) : DCCFile :=
  ⟨pyStrip title, pyStrip filename, url, none⟩

/-- The `DCCRecord` dataclass.  Dates are modelled as opaque integers
(timestamps); `None`-able scalar fields are `Option`s, and the list fields are
plain lists because `__post_init__` normalises `None` to `[]` (except
`keywords`, which it leaves alone). -/
structure DCCRecord where
  dcc_number : DCCNumber
  title : Option String
  authors : List DCCAuthor
  abstract : Option String
  keywords : Option (List String)
  note : Option String
  publication_info : Option String
  journal_reference : Option DCCJournalRef
  other_versions : List Nat
  creation_date : Option Int
  contents_revision_date : Option Int
  metadata_revision_date : Option Int
  files : List DCCFile
  referenced_by : List DCCNumber
  related_to : List DCCNumber
deriving DecidableEq, Repr

/-- The validation `DCCNumber.__init__` performs when given explicit parts (the
copy-constructor / keyword path used by `DCCRecord.__post_init__` and
`DCCRecord.read`): category must be a known letter and the numeric part an
all-digit string; a `Nat` version is always valid. -/
def validateNumber (d : DCCNumber) : Except String DCCNumber :=
  if d.category ∉ letters then .error "ValueError: category is invalid"
  else if ¬ pyIsDigitStr d.numeric then .error "ValueError: number is invalid"
  else .ok d

/-- `DCCRecord.__post_init__`: re-validate the record's own number via the
`DCCNumber` copy constructor, and truncate `referenced_by` and `related_to`
with `takewhile(lambda number: number.numeric != self.dcc_number.numeric)`. -/
def recordPostInit (r : DCCRecord) : Except String DCCRecord :=
  match validateNumber r.dcc_number with
  | .error e => .error e
  | .ok num =>
    .ok { r with
      dcc_number := num,
      referenced_by := r.referenced_by.takeWhile (fun n => n.numeric != num.numeric),
      related_to := r.related_to.takeWhile (fun n => n.numeric != num.numeric) }

/-- `DCCRecord(...)` dataclass construction followed by `__post_init__`:
`None` list arguments become `[]` (`list(x or [])`). -/
def mkDCCRecord (dcc_number : DCCNumber) (title : Option String)
    (authors : Option (List DCCAuthor)) (abstract : Option String)
    (keywords : Option (List String)) (note : Option String)
    (publication_info : Option String) (journal_reference : Option DCCJournalRef)
    (other_versions : Option (List Nat)) (creation_date : Option Int)
    (contents_revision_date : Option Int) (metadata_revision_date : Option Int)
    (files : Option (List DCCFile)) (referenced_by : Option (List DCCNumber))
    (related_to : Option (List DCCNumber)) : Except String DCCRecord :=
  recordPostInit
    { dcc_number := dcc_number
      title := title
      authors := authors.getD []
      abstract := abstract
      keywords := keywords
      note := note
      publication_info := publication_info
      journal_reference := journal_reference
      other_versions := other_versions.getD []
      creation_date := creation_date
      contents_revision_date := contents_revision_date
      metadata_revision_date := metadata_revision_date
      files := files.getD []
      referenced_by := referenced_by.getD []
      related_to := related_to.getD [] }

/-- Modelled from the claim's words, for comparison with the code: truncate the
cross-reference list at the first entry that references the record itself,
i.e. the first entry naming the same document (category and numeric). -/
def truncateAtFirstSelfReference (own : DCCNumber) (l : List DCCNumber) : List DCCNumber :=
  l.takeWhile (fun n => !((n.category == own.category) && (n.numeric == own.numeric)))

theorem takeWhile_append_stop {α : Type} (p : α → Bool) (pre : List α) (x : α) (suf : List α)
    (hpre : ∀ y ∈ pre, p y = true) (hx : p x = false) :
    (pre ++ x :: suf).takeWhile p = pre := by
  induction pre with
  | nil => simp [List.takeWhile_cons, hx]
  | cons a as ih =>
    simp only [List.cons_append, List.takeWhile_cons, hpre a (by simp)]
    rw [ih (fun y hy => hpre y (by simp [hy]))]
    simp

theorem takeWhile_eq_self_of {α : Type} (p : α → Bool) (l : List α)
    (h : ∀ y ∈ l, p y = true) : l.takeWhile p = l := by
  induction l with
  | nil => rfl
  | cons a as ih =>
    simp only [List.takeWhile_cons, h a (by simp)]
    rw [ih (fun y hy => h y (by simp [hy]))]
    simp

theorem validateNumber_of_valid {d : DCCNumber} (h : d.valid) :
    validateNumber d = .ok d := by
  unfold validateNumber
  rw [if_neg (not_not_intro h.1), if_neg (not_not_intro h.2)]

/-- C9 counterexample: record `T1-v1` with `referenced_by = [M1, T2]`.  Neither
entry references the record itself (`M1` is a different document), so the claim
predicts the whole list `[M1, T2]` is kept; the code truncates at `M1` because
its numeric part alone matches, leaving `[]`. -/
theorem C9_counterexample :
    (mkDCCRecord ⟨'T', ['1'], some 1⟩ none none none none none none none none none none none
      none (some [⟨'M', ['1'], none⟩, ⟨'T', ['2'], none⟩]) none).map
        (fun r => r.referenced_by) = .ok [] ∧
    truncateAtFirstSelfReference ⟨'T', ['1'], some 1⟩
      [⟨'M', ['1'], none⟩, ⟨'T', ['2'], none⟩] = [⟨'M', ['1'], none⟩, ⟨'T', ['2'], none⟩] := by
  exact ⟨rfl, rfl⟩

/-- C9 (amended): on construction, `referenced_by` and `related_to` are each
truncated at the first entry whose *numeric part* equals the record's numeric
part (the category is ignored): every entry strictly before the first such
entry is kept in order, and that entry and everything after it are dropped;
a list with no such entry is kept whole. -/
theorem C9_truncation (own : DCCNumber) (hv : own.valid)
    (title : Option String) (authors : Option (List DCCAuthor)) (abstract : Option String)
    (keywords : Option (List String)) (note : Option String) (pub : Option String)
    (jref : Option DCCJournalRef) (ovs : Option (List Nat)) (cd crd mrd : Option Int)
    (files : Option (List DCCFile)) (refs rels : List DCCNumber) :
    (∀ pre x suf, refs = pre ++ x :: suf →
      (∀ y ∈ pre, y.numeric ≠ own.numeric) → x.numeric = own.numeric →
      (mkDCCRecord own title authors abstract keywords note pub jref ovs cd crd mrd files
        (some refs) (some rels)).map (fun r => r.referenced_by) = .ok pre) ∧
    ((∀ y ∈ refs, y.numeric ≠ own.numeric) →
      (mkDCCRecord own title authors abstract keywords note pub jref ovs cd crd mrd files
        (some refs) (some rels)).map (fun r => r.referenced_by) = .ok refs) ∧
    (∀ pre x suf, rels = pre ++ x :: suf →
      (∀ y ∈ pre, y.numeric ≠ own.numeric) → x.numeric = own.numeric →
      (mkDCCRecord own title authors abstract keywords note pub jref ovs cd crd mrd files
        (some refs) (some rels)).map (fun r => r.related_to) = .ok pre) ∧
    ((∀ y ∈ rels, y.numeric ≠ own.numeric) →
      (mkDCCRecord own title authors abstract keywords note pub jref ovs cd crd mrd files
        (some refs) (some rels)).map (fun r => r.related_to) = .ok rels) := by
  have hnum := validateNumber_of_valid hv
  refine ⟨?_, ?_, ?_, ?_⟩
  · intro pre x suf hdecomp hpre hx
    subst hdecomp
    simp only [mkDCCRecord, recordPostInit, hnum, Option.getD_some, Except.map]
    rw [takeWhile_append_stop _ pre x suf
      (fun y hy => bne_iff_ne.mpr (hpre y hy)) (by simpa using hx)]
  · intro hall
    simp only [mkDCCRecord, recordPostInit, hnum, Option.getD_some, Except.map]
    rw [takeWhile_eq_self_of _ refs (fun y hy => bne_iff_ne.mpr (hall y hy))]
  · intro pre x suf hdecomp hpre hx
    subst hdecomp
    simp only [mkDCCRecord, recordPostInit, hnum, Option.getD_some, Except.map]
    rw [takeWhile_append_stop _ pre x suf
      (fun y hy => bne_iff_ne.mpr (hpre y hy)) (by simpa using hx)]
  · intro hall
    simp only [mkDCCRecord, recordPostInit, hnum, Option.getD_some, Except.map]
    rw [takeWhile_eq_self_of _ rels (fun y hy => bne_iff_ne.mpr (hall y hy))]

/-- C9 witness: `T1-v1` with `referenced_by = [T2, T1-v3, M9]` keeps exactly
`[T2]`. -/
theorem C9_witness :
    (mkDCCRecord ⟨'T', ['1'], some 1⟩ none none none none none none none none none none none
      none (some [⟨'T', ['2'], none⟩, ⟨'T', ['1'], some 3⟩, ⟨'M', ['9'], none⟩])
      (some [])).map (fun r => r.referenced_by) = .ok [⟨'T', ['2'], none⟩] :=
  (C9_truncation ⟨'T', ['1'], some 1⟩ (by decide) none none none none none none none none
    none none none none [⟨'T', ['2'], none⟩, ⟨'T', ['1'], some 3⟩, ⟨'M', ['9'], none⟩] []).1
    [⟨'T', ['2'], none⟩] ⟨'T', ['1'], some 3⟩ [⟨'M', ['9'], none⟩] rfl (by decide) rfl

/-- Python list subscription `l[i]`: negative indices count from the end;
out-of-range raises `IndexError`. -/
def pyIndex {α : Type} (l : List α) (i : Int) : Except String α :=
  let j : Int := if i < 0 then i + l.length else i
  if h : 0 ≤ j ∧ j < (l.length : Int) then
    .ok (l.get ⟨j.toNat, by omega⟩)
  else .error "IndexError: list index out of range"

/-- `String` form of a character-list string (used when embedding a
`DCCNumber` in a filesystem path). -/
def strOfList (s : Str) : String := ⟨s⟩

/-- `DCCArchive.document_dir`: `archive_dir / number.format(version=False)`. -/
def documentDirStr (archiveDir : String) (d : DCCNumber) : String :=
  archiveDir ++ "/" ++ strOfList (d.format false)

/-- `DCCArchive.revision_dir`: requires a version, raising `NoVersionError`
otherwise. -/
def revisionDir (archiveDir : String) (d : DCCNumber) : Except String String :=
  if d.version = none then .error "NoVersionError"
  else .ok (documentDirStr archiveDir d ++ "/" ++ strOfList (d.format true))

/-- Success path of `DCCFile.fetch` into `directory` followed by
`DCCFile.discover`: a cache hit (file present and not overwriting) performs no
session call; otherwise the file is downloaded (one `fetch_file_contents`
call) and appears in the directory.  Either way `local_path` is set.  The
failure behaviour of `DCCFile.fetch` is modelled separately on the explicit
filesystem (`fetchWithHook`). -/
def DCCFile.fetchSimple (f : DCCFile) (dir : String) (present : List String)
    (overwrite : Bool) : DCCFile × List String × Nat :=
  if ¬overwrite ∧ f.filename ∈ present then
    ({ f with local_path := some (dir ++ "/" ++ f.filename) }, present, 0)
  else
    ({ f with local_path := some (dir ++ "/" ++ f.filename) }, f.filename :: present, 1)

/-- `DCCRecord.fetch_file`: look up `self.files[number - 1]` and fetch it.
Returns the fetched file, the directory contents afterwards and the number of
file-content session calls made. -/
def DCCRecord.fetchFileModel (r : DCCRecord) (number : Int) (dir : String)
    (present : List String) (overwrite : Bool) :
    Except String (DCCFile × List String × Nat) :=
  (pyIndex r.files (number - 1)).map (fun f => DCCFile.fetchSimple f dir present overwrite)

/-- `DCCArchive.fetch_record_file`: delegates to `DCCRecord.fetch_file` with
the revision directory of the record's number. -/
def fetchRecordFileModel (archiveDir : String) (r : DCCRecord) (number : Int)
    (present : List String) (overwrite : Bool) :
    Except String (DCCFile × List String × Nat) :=
  match revisionDir archiveDir r.dcc_number with
  | .error e => .error e
  | .ok dir => r.fetchFileModel number dir present overwrite

theorem pyIndex_neg_one {α : Type} (l : List α) (f : α) (h : l.getLast? = some f) :
    pyIndex l (-1) = .ok f := by
  have hne : l ≠ [] := by intro h0; subst h0; simp at h
  have hpos : 0 < l.length := List.length_pos.mpr hne
  rw [List.getLast?_eq_getElem?] at h
  have h3 : l.length - 1 < l.length := by omega
  rw [List.getElem?_eq_getElem h3] at h
  simp only [pyIndex, if_pos (show (-1 : Int) < 0 by norm_num)]
  rw [dif_pos ⟨by omega, by omega⟩]
  have hidx : ((-1 : Int) + ↑l.length).toNat = l.length - 1 := by omega
  simp only [List.get_eq_getElem]
  rw [Option.some_inj] at h
  rw [← h]
  congr 1
  simp only [hidx]

/-- C10: for a record with at least one attached file, `fetch_file(number=0)`
(and `DCCArchive.fetch_record_file` with `number=0`) raises no out-of-range
error: `files[number - 1]` admits Python negative indexing, so position 0
fetches and returns the *last* file in the list. -/
theorem C10_file_number_zero (r : DCCRecord) (dir : String) (present : List String)
    (overwrite : Bool) (f : DCCFile) (hlast : r.files.getLast? = some f) :
    r.fetchFileModel 0 dir present overwrite
      = .ok (DCCFile.fetchSimple f dir present overwrite) ∧
    (∀ archiveDir dir2, revisionDir archiveDir r.dcc_number = .ok dir2 →
      fetchRecordFileModel archiveDir r 0 present overwrite
        = .ok (DCCFile.fetchSimple f dir2 present overwrite)) := by
  have hidx : pyIndex r.files ((0 : Int) - 1) = .ok f := by
    rw [show (0 : Int) - 1 = -1 by norm_num]
    exact pyIndex_neg_one _ _ hlast
  constructor
  · unfold DCCRecord.fetchFileModel
    rw [hidx]
    rfl
  · intro archiveDir dir2 hdir
    unfold fetchRecordFileModel
    rw [hdir]
    unfold DCCRecord.fetchFileModel
    rw [hidx]
    rfl

/-- C10 witness: a record with two files returns the second (last) file for
`number=0`. -/
theorem C10_witness :
    (⟨⟨'T', ['1'], some 1⟩, none, [], none, none, none, none, none, [], none, none, none,
      [⟨"a", "a.pdf", "u", none⟩, ⟨"b", "b.pdf", "u2", none⟩], [], []⟩ : DCCRecord).fetchFileModel
      0 "d" [] false
      = .ok (DCCFile.fetchSimple ⟨"b", "b.pdf", "u2", none⟩ "d" [] false) :=
  (C10_file_number_zero ⟨⟨'T', ['1'], some 1⟩, none, [], none, none, none, none, none, [],
    none, none, none, [⟨"a", "a.pdf", "u", none⟩, ⟨"b", "b.pdf", "u2", none⟩], [], []⟩
    "d" [] false ⟨"b", "b.pdf", "u2", none⟩ rfl).1

/-- One entry of the serialised `files` array: `asdict` of a `DCCFile` with
`local_path` popped before writing. -/
structure MetaFile where
  title : String
  filename : String
  url : String
deriving DecidableEq, Repr

/-- The content of a serialised meta file: `asdict(record)` with `None` values
stripped by `remove_none` (encoded here as `Option`) and `local_path` popped
from each file.  The TOML encoding itself, performed by the external
`tomli`/`tomli_w` libraries, is assumed faithful. -/
structure MetaDict where
  dcc_number : DCCNumber
  title : Option String
  authors : List DCCAuthor
  abstract : Option String
  keywords : Option (List String)
  note : Option String
  publication_info : Option String
  journal_reference : Option DCCJournalRef
  other_versions : List Nat
  creation_date : Option Int
  contents_revision_date : Option Int
  metadata_revision_date : Option Int
  files : List MetaFile
  referenced_by : List DCCNumber
  related_to : List DCCNumber
deriving DecidableEq, Repr

/-- `DCCRecord.write`: serialise every field except `local_path`, which is
popped from each file entry. -/
def recordWrite (r : DCCRecord) : MetaDict :=
  { dcc_number := r.dcc_number
    title := r.title
    authors := r.authors
    abstract := r.abstract
    keywords := r.keywords
    note := r.note
    publication_info := r.publication_info
    journal_reference := r.journal_reference
    other_versions := r.other_versions
    creation_date := r.creation_date
    contents_revision_date := r.contents_revision_date
    metadata_revision_date := r.metadata_revision_date
    files := r.files.map (fun f => ⟨f.title, f.filename, f.url⟩)
    referenced_by := r.referenced_by
    related_to := r.related_to }

/-- Reconstruction of the `DCCNumber` list entries on read
(`[DCCNumber(**ref) for ref in item[...]]`), validating each in order. -/
def validateNumbers : List DCCNumber → Except String (List DCCNumber)
  | [] => .ok []
  | n :: ns =>
    match validateNumber n with
    | .error e => .error e
    | .ok n1 =>
      match validateNumbers ns with
      | .error e => .error e
      | .ok ns1 => .ok (n1 :: ns1)

/-- `DCCRecord.read`: rebuild every field from the serialised dict, re-derive
each file's `local_path` from the files physically present beside the meta
file (`present`, living in directory `dir`), then run dataclass construction
including `__post_init__`. -/
def recordRead (m : MetaDict) (dir : String) (present : List String) :
    Except String DCCRecord :=
  match validateNumber m.dcc_number with
  | .error e => .error e
  | .ok num =>
    let files := m.files.map (fun mf =>
      let f := mkDCCFile mf.title mf.filename mf.url
      if f.filename ∈ present then { f with local_path := some (dir ++ "/" ++ f.filename) }
      else f)
    match validateNumbers m.referenced_by with
    | .error e => .error e
    | .ok refs =>
      match validateNumbers m.related_to with
      | .error e => .error e
      | .ok rels =>
        mkDCCRecord num m.title (some m.authors) m.abstract m.keywords m.note
          m.publication_info m.journal_reference (some m.other_versions) m.creation_date
          m.contents_revision_date m.metadata_revision_date (some files) (some refs)
          (some rels)

/-- A `DCCFile` whose title and filename are already stripped, as guaranteed by
`DCCFile.__post_init__`. -/
def DCCFile.isStripped (f : DCCFile) : Prop :=
  f.title = pyStrip f.title ∧ f.filename = pyStrip f.filename

instance (f : DCCFile) : Decidable f.isStripped := by
  unfold DCCFile.isStripped
  infer_instance

/-- The invariants every `DCCRecord` constructed through
`DCCRecord.__post_init__` satisfies: validated own number, validated
cross-reference numbers, already-truncated cross-reference lists, and stripped
file names. -/
def DCCRecord.wf (r : DCCRecord) : Prop :=
  r.dcc_number.valid ∧
  (∀ n ∈ r.referenced_by, n.valid) ∧
  (∀ n ∈ r.related_to, n.valid) ∧
  (∀ f ∈ r.files, f.isStripped) ∧
  r.referenced_by.takeWhile (fun n => n.numeric != r.dcc_number.numeric) = r.referenced_by ∧
  r.related_to.takeWhile (fun n => n.numeric != r.dcc_number.numeric) = r.related_to

instance (r : DCCRecord) : Decidable r.wf := by
  unfold DCCRecord.wf
  infer_instance

theorem validateNumbers_of_valid {l : List DCCNumber} (h : ∀ n ∈ l, n.valid) :
    validateNumbers l = .ok l := by
  induction l with
  | nil => rfl
  | cons n ns ih =>
    unfold validateNumbers
    rw [validateNumber_of_valid (h n (by simp)), ih (fun y hy => h y (by simp [hy]))]

/-- C4: writing a record and reading it back yields a record equal
field-for-field, except each file's `local_path`, which is not persisted and is
re-derived from the files physically present beside the meta file. -/
theorem C4_write_read_roundtrip (r : DCCRecord) (h : r.wf) (dir : String)
    (present : List String) :
    recordRead (recordWrite r) dir present
      = .ok { r with files := r.files.map (fun f =>
          if f.filename ∈ present
          then { f with local_path := some (dir ++ "/" ++ f.filename) }
          else { f with local_path := none }) } := by
  obtain ⟨hnum, hrefs, hrels, hfiles, hstab1, hstab2⟩ := h
  unfold recordRead recordWrite
  simp only
  rw [validateNumber_of_valid hnum, validateNumbers_of_valid hrefs,
    validateNumbers_of_valid hrels]
  simp only [mkDCCRecord, recordPostInit, validateNumber_of_valid hnum, Option.getD_some]
  rw [hstab1, hstab2]
  rw [List.map_map]
  have hmap : ∀ f ∈ r.files,
      ((fun mf : MetaFile =>
        let f1 := mkDCCFile mf.title mf.filename mf.url
        if f1.filename ∈ present
        then { f1 with local_path := some (dir ++ "/" ++ f1.filename) }
        else f1) ∘ (fun f : DCCFile => (⟨f.title, f.filename, f.url⟩ : MetaFile))) f
      = (fun f : DCCFile =>
          if f.filename ∈ present
          then { f with local_path := some (dir ++ "/" ++ f.filename) }
          else { f with local_path := none }) f := by
    intro f hf
    obtain ⟨hs1, hs2⟩ := hfiles f hf
    obtain ⟨ft, fn, fu, fl⟩ := f
    simp only at hs1 hs2
    simp only [Function.comp, mkDCCFile, ← hs1, ← hs2]
  rw [List.map_congr_left hmap]

/-- C4 witness: a concrete record with a downloaded file round-trips, with the
file's `local_path` re-derived from the directory contents. -/
theorem C4_witness :
    recordRead (recordWrite ⟨⟨'T', ['1'], some 2⟩, some "t", [⟨"A", some 7⟩], none,
      some ["k"], none, none, some ⟨"J", 3, "12", "c", none⟩, [0, 1], some 5, none, none,
      [⟨"a", "a.pdf", "u", some "stale"⟩], [⟨'T', ['2'], none⟩], []⟩) "d" ["a.pdf"]
      = .ok { (⟨⟨'T', ['1'], some 2⟩, some "t", [⟨"A", some 7⟩], none,
          some ["k"], none, none, some ⟨"J", 3, "12", "c", none⟩, [0, 1], some 5, none, none,
          [⟨"a", "a.pdf", "u", some "stale"⟩], [⟨'T', ['2'], none⟩], []⟩ : DCCRecord) with
          files := ([⟨"a", "a.pdf", "u", some "stale"⟩] : List DCCFile).map (fun f =>
            if f.filename ∈ ["a.pdf"]
            then { f with local_path := some ("d" ++ "/" ++ f.filename) }
            else { f with local_path := none }) } :=
  C4_write_read_roundtrip ⟨⟨'T', ['1'], some 2⟩, some "t", [⟨"A", some 7⟩], none,
    some ["k"], none, none, some ⟨"J", 3, "12", "c", none⟩, [0, 1], some 5, none, none,
    [⟨"a", "a.pdf", "u", some "stale"⟩], [⟨'T', ['2'], none⟩], []⟩ (by decide) "d" ["a.pdf"]

/-- The output shape of the external Parser (`DCCXMLRecordParser`) for one
record page, as consumed by `DCCRecord.fetch`. -/
structure ParsedPage where
  category : Char
  numeric : Str
  version : Option Nat
  title : Option String
  authors : List DCCAuthor
  abstract : Option String
  keywords : Option (List String)
  note : Option String
  publication_info : Option String
  journal_reference : Option DCCJournalRef
  other_version_numbers : List Nat
  creation_date : Option Int
  contents_revision_date : Option Int
  metadata_revision_date : Option Int
  attached_files : List MetaFile
  referencing_ids : List Str
  related_ids : List Str
deriving DecidableEq, Repr

/-- `[DCCNumber(ref) for ref in ids]`: parse each raw cross-reference string,
propagating the first construction error. -/
def parseNumberStrings : List Str → Except String (List DCCNumber)
  | [] => .ok []
  | s :: ss =>
    match DCCNumber.fromString s none with
    | .error e => .error e
    | .ok n =>
      match parseNumberStrings ss with
      | .error e => .error e
      | .ok ns => .ok (n :: ns)

/-- `DCCRecord.fetch` applied to the parsed page returned for `dcc_number`:
validate that the parsed document matches the request (and the version too when
one was requested), compute `other_versions` as the remote-reported version set
minus the parsed record's own version, and build the record (running
`__post_init__`). -/
def DCCRecord.fetchModel (dcc_number : DCCNumber) (page : ParsedPage) :
    Except String DCCRecord :=
  match validateNumber ⟨page.category, page.numeric, page.version⟩ with
  | .error e => .error e
  | .ok parsedNum =>
    if parsedNum.category ≠ dcc_number.category ∨ parsedNum.numeric ≠ dcc_number.numeric then
      .error "ValueError: the retrieved record is different from the requested one"
    else if dcc_number.version ≠ none ∧ parsedNum.version ≠ dcc_number.version then
      .error "ValueError: the retrieved record has a different version to the requested one"
    else
      let other_versions := page.other_version_numbers.dedup.filter
        (fun n => some n != parsedNum.version)
      match parseNumberStrings page.referencing_ids with
      | .error e => .error e
      | .ok refs =>
        match parseNumberStrings page.related_ids with
        | .error e => .error e
        | .ok rels =>
          mkDCCRecord parsedNum page.title (some page.authors) page.abstract page.keywords
            page.note page.publication_info page.journal_reference (some other_versions)
            page.creation_date page.contents_revision_date page.metadata_revision_date
            (some (page.attached_files.map (fun mf => mkDCCFile mf.title mf.filename mf.url)))
            (some refs) (some rels)

/-- The elements of the Python set `{self.dcc_number.version, *self.other_versions}`
(insertion order; duplicates are collapsed by the set). -/
def DCCRecord.version_numbersL (r : DCCRecord) : List (Option Nat) :=
  r.dcc_number.version :: r.other_versions.map some

/-- `DCCRecord.version_numbers` as a set. -/
def DCCRecord.version_numbers (r : DCCRecord) : Finset (Option Nat) :=
  r.version_numbersL.toFinset

/-- Python's `max` over a set of optional naturals: a single-element set is
returned without comparison; otherwise comparing `None` with an int raises
`TypeError`, and an all-int set yields the maximum. -/
def pySetMax (l : List (Option Nat)) : Except String (Option Nat) :=
  match l.dedup with
  | [] => .error "ValueError: max of empty sequence"
  | [x] => .ok x
  | d =>
    if none ∈ d then .error "TypeError: NoneType is not orderable"
    else .ok (some ((d.filterMap id).foldl Nat.max 0))

/-- `DCCRecord.latest_version_number`: `max(self.version_numbers)`. -/
def DCCRecord.latest_version_number (r : DCCRecord) : Except String (Option Nat) :=
  pySetMax r.version_numbersL

/-- `DCCRecord.is_latest_version`: `self.dcc_number.version is self.latest_version_number`.
CPython's `is` on the version coincides with equality here: when the own
version equals the maximum, `max` returns the very object that was inserted
first into the set (the own version), and two ints with different values are
never the same object. -/
def DCCRecord.is_latest_version (r : DCCRecord) : Except String Bool :=
  (r.latest_version_number).map (fun m => r.dcc_number.version == m)

theorem init_le_foldl_max (L : List Nat) (a : Nat) : a ≤ L.foldl Nat.max a := by
  induction L generalizing a with
  | nil => simp
  | cons b bs ih => exact le_trans (Nat.le_max_left a b) (ih (Nat.max a b))

theorem le_foldl_max (L : List Nat) (a : Nat) : ∀ x ∈ L, x ≤ L.foldl Nat.max a := by
  induction L generalizing a with
  | nil => simp
  | cons b bs ih =>
    intro x hx
    rcases List.mem_cons.mp hx with rfl | hx
    · exact le_trans (Nat.le_max_right a x) (init_le_foldl_max bs (Nat.max a x))
    · exact ih (Nat.max a b) x hx

theorem foldl_max_mem (L : List Nat) (a : Nat) :
    L.foldl Nat.max a = a ∨ L.foldl Nat.max a ∈ L := by
  induction L generalizing a with
  | nil => left; rfl
  | cons b bs ih =>
    rw [List.foldl_cons]
    rcases ih (Nat.max a b) with h | h
    · rw [h]
      rcases Nat.le_total a b with h2 | h2
      · right
        have h3 : a.max b = b := Nat.max_eq_right h2
        rw [h3]
        exact List.mem_cons_self b bs
      · left
        exact Nat.max_eq_left h2
    · right; exact List.mem_cons_of_mem b h

theorem foldl_max_zero_mem {L : List Nat} (h : L ≠ []) : L.foldl Nat.max 0 ∈ L := by
  rcases foldl_max_mem L 0 with h0 | hm
  · obtain ⟨y, hy⟩ := List.exists_mem_of_ne_nil L h
    have hy0 : y = 0 := Nat.le_zero.mp (h0 ▸ le_foldl_max L 0 y hy)
    rw [h0]
    rw [hy0] at hy
    exact hy
  · exact hm

theorem pySetMax_some (v : Nat) (others : List Nat) :
    ∃ M, pySetMax (some v :: others.map some) = .ok (some M) ∧
      M ∈ v :: others ∧ ∀ x ∈ v :: others, x ≤ M := by
  have hmem : ∀ o : Option Nat, o ∈ (some v :: others.map some).dedup
      ↔ o ∈ some v :: others.map some := fun o => List.mem_dedup
  have hnone : (none : Option Nat) ∉ (some v :: others.map some).dedup := by
    rw [hmem]
    simp
  have hvl : (some v) ∈ (some v :: others.map some : List (Option Nat)) := by simp
  have hsome : ∀ o ∈ (some v :: others.map some : List (Option Nat)), ∃ z, o = some z
      ∧ z ∈ v :: others := by
    intro o ho
    rcases List.mem_cons.mp ho with rfl | ho
    · exact ⟨v, rfl, by simp⟩
    · obtain ⟨z, hz, rfl⟩ := List.mem_map.mp ho
      exact ⟨z, rfl, by simp [hz]⟩
  have hback : ∀ z ∈ v :: others, (some z) ∈ (some v :: others.map some : List (Option Nat)) := by
    intro z hz
    rcases List.mem_cons.mp hz with rfl | hz
    · simp
    · simp [hz]
  cases hd : (some v :: others.map some).dedup with
  | nil =>
    exfalso
    have hin := (hmem (some v)).mpr hvl
    rw [hd] at hin
    simp at hin
  | cons x xs =>
    cases xs with
    | nil =>
      have hx : some v = x := by
        have hin := (hmem (some v)).mpr hvl
        rw [hd] at hin
        simpa using hin
      refine ⟨v, ?_, by simp, ?_⟩
      · unfold pySetMax
        rw [hd, ← hx]
      · intro z hz
        have hin := (hmem (some z)).mpr (hback z hz)
        rw [hd, ← hx] at hin
        simp only [List.mem_singleton, Option.some_inj] at hin
        omega
    | cons y ys =>
      have hnn : ∀ o ∈ (x :: y :: ys : List (Option Nat)), ∃ z, o = some z
          ∧ z ∈ v :: others := by
        intro o ho
        have hin := (hmem o).mp (hd ▸ ho)
        exact hsome o hin
      have hfm : ∀ z : Nat, z ∈ (x :: y :: ys).filterMap id ↔ (some z) ∈ (x :: y :: ys : List (Option Nat)) := by
        intro z
        simp [List.mem_filterMap]
      have hxne : (x :: y :: ys).filterMap id ≠ [] := by
        obtain ⟨z, hz, _⟩ := hnn x (by simp)
        intro hempty
        have : z ∈ (x :: y :: ys).filterMap id := (hfm z).mpr (by rw [← hz]; simp)
        rw [hempty] at this
        simp at this
      refine ⟨((x :: y :: ys).filterMap id).foldl Nat.max 0, ?_, ?_, ?_⟩
      · unfold pySetMax
        rw [hd]
        show (if none ∈ (x :: y :: ys : List (Option Nat))
            then Except.error "TypeError: NoneType is not orderable"
            else Except.ok (some (List.foldl Nat.max 0 (List.filterMap id (x :: y :: ys)))))
          = Except.ok (some (List.foldl Nat.max 0 (List.filterMap id (x :: y :: ys))))
        rw [if_neg (hd ▸ hnone)]
      · have hmm := foldl_max_zero_mem hxne
        obtain ⟨z0, hz0eq, hz0mem⟩ := hnn _ ((hfm _).mp hmm)
        rw [Option.some_inj] at hz0eq
        rw [hz0eq]
        exact hz0mem
      · intro z hz
        have hin := (hmem (some z)).mpr (hback z hz)
        rw [hd] at hin
        exact le_foldl_max _ 0 z ((hfm z).mpr hin)

/-- The concrete parser output used for C8's end-to-end scenario: a page
describing `T1234567-v2` whose version list is `{0, 1, 2}`. -/
def endToEndPage : ParsedPage :=
  ⟨'T', ['1', '2', '3', '4', '5', '6', '7'], some 2, none, [], none, none, none, none, none,
    [0, 1, 2], none, none, none, [], [], []⟩

/-- The record `DCCRecord.fetch` produces for `endToEndPage`. -/
def endToEndRecord : DCCRecord :=
  ⟨⟨'T', ['1', '2', '3', '4', '5', '6', '7'], some 2⟩, none, [], none, none, none, none, none,
    [0, 1], none, none, none, [], [], []⟩

/-- C8: `version_numbers` is the union of `other_versions` and the record's own
version, `latest_version_number` is its maximum, and `is_latest_version()`
returns True exactly when the own version equals that maximum; fetching
versionless `T1234567` against a page describing `T1234567-v2` with reported
versions `{0, 1, 2}` yields `version_numbers == {0, 1, 2}` and
`latest_version_number == 2`. -/
theorem C8_version_numbers (r : DCCRecord) (v : Nat) (hv : r.dcc_number.version = some v) :
    r.version_numbers = insert (some v) (r.other_versions.map some).toFinset ∧
    (∃ M, r.latest_version_number = .ok (some M) ∧ M ∈ v :: r.other_versions ∧
      (∀ x ∈ v :: r.other_versions, x ≤ M) ∧
      (r.is_latest_version = .ok true ↔ v = M)) ∧
    (DCCRecord.fetchModel ⟨'T', ['1', '2', '3', '4', '5', '6', '7'], none⟩ endToEndPage
        = .ok endToEndRecord ∧
      endToEndRecord.version_numbers = ({some 0, some 1, some 2} : Finset (Option Nat)) ∧
      endToEndRecord.latest_version_number = .ok (some 2) ∧
      endToEndRecord.is_latest_version = .ok true) := by
  refine ⟨?_, ?_, rfl, by decide, rfl, rfl⟩
  · unfold DCCRecord.version_numbers DCCRecord.version_numbersL
    rw [hv]
    simp
  · obtain ⟨M, hmax, hmem, hle⟩ := pySetMax_some v r.other_versions
    have hlat : r.latest_version_number = .ok (some M) := by
      unfold DCCRecord.latest_version_number DCCRecord.version_numbersL
      rw [hv]
      exact hmax
    refine ⟨M, hlat, hmem, hle, ?_⟩
    have hisl : r.is_latest_version = .ok (some v == some M) := by
      unfold DCCRecord.is_latest_version
      rw [hlat, hv]
      rfl
    rw [hisl]
    constructor
    · intro h
      have hb : (some v == some M) = true := by
        injection h
      simpa using hb
    · intro h
      subst h
      simp

/-- C8 witness: the version-number equations applied to the concrete record
`T1234567-v2` with other versions `[0, 1]`. -/
theorem C8_witness :
    endToEndRecord.version_numbers
      = insert (some 2) ((endToEndRecord.other_versions.map some).toFinset) :=
  (C8_version_numbers endToEndRecord 2 rfl).1

/-- A directory tree as a flat map from paths to byte contents. -/
abbrev FS := List (String × List Nat)

/-- Look up the content stored at a path. -/
def fsLookup (fs : FS) (p : String) : Option (List Nat) :=
  match fs with
  | [] => none
  | e :: rest => if e.1 = p then some e.2 else fsLookup rest p

/-- Delete a path. -/
def fsRemove (fs : FS) (p : String) : FS :=
  fs.filter (fun e => e.1 != p)

/-- Create or overwrite the content at a path. -/
def fsUpdate (fs : FS) (p : String) (c : List Nat) : FS :=
  (p, c) :: fsRemove fs p

theorem fsLookup_remove_other (fs : FS) (p q : String) (h : q ≠ p) :
    fsLookup (fsRemove fs p) q = fsLookup fs q := by
  induction fs with
  | nil => rfl
  | cons e rest ih =>
    by_cases he : e.1 = p
    · rw [show fsRemove (e :: rest) p = fsRemove rest p by simp [fsRemove, he], ih,
        show fsLookup (e :: rest) q = if e.1 = q then some e.2 else fsLookup rest q from rfl,
        if_neg (by rw [he]; exact fun hpq => h hpq.symm)]
    · rw [show fsRemove (e :: rest) p = e :: fsRemove rest p by
          simp [fsRemove, List.filter_cons, he],
        show fsLookup (e :: fsRemove rest p) q
          = if e.1 = q then some e.2 else fsLookup (fsRemove rest p) q from rfl,
        show fsLookup (e :: rest) q = if e.1 = q then some e.2 else fsLookup rest q from rfl,
        ih]

theorem fsLookup_update_self (fs : FS) (p : String) (c : List Nat) :
    fsLookup (fsUpdate fs p c) p = some c := by
  simp [fsUpdate, fsLookup]

theorem fsLookup_update_other (fs : FS) (p q : String) (c : List Nat) (h : q ≠ p) :
    fsLookup (fsUpdate fs p c) q = fsLookup fs q := by
  rw [show fsLookup (fsUpdate fs p c) q
      = if p = q then some c else fsLookup (fsRemove fs p) q from rfl,
    if_neg (fun hpq => h hpq.symm)]
  exact fsLookup_remove_other fs p q h

/-- Failures a streamed file download can raise. -/
inductive StreamErr where
  | tooLarge
  | transport
deriving DecidableEq, Repr

/-- The temporary download path `directory/.{filename}-tmp` used by
`DCCFile.fetch`. -/
def tmpPath (dir fname : String) : String := dir ++ "/." ++ fname ++ "-tmp"

/-- The final download path `directory/filename`. -/
def finalPath (dir fname : String) : String := dir ++ "/" ++ fname

theorem tmpPath_ne_finalPath (dir fname : String) : tmpPath dir fname ≠ finalPath dir fname := by
  intro h
  have hlen := congrArg String.length h
  have h1 : ("/." : String).length = 2 := rfl
  have h2 : ("/" : String).length = 1 := rfl
  have h3 : ("-tmp" : String).length = 4 := rfl
  simp only [tmpPath, finalPath, String.length_append, h1, h2, h3] at hlen
  omega

/-- `DCCFile.fetch` on the explicit filesystem.  With no overwrite and the
final path already present this is a no-op cache hit.  Otherwise the temp file
is opened (created empty), the delivered chunks are written to it, and then
either the stream fails (`err`), leaving the temp file behind, or the temp
file is atomically moved onto the final path. -/
def fetchFS (fs : FS) (dir fname : String) (overwrite : Bool)
    (delivered : List (List Nat)) (err : Option StreamErr) : FS × Except StreamErr Unit :=
  let fp := finalPath dir fname
  let tmp := tmpPath dir fname
  if ¬overwrite ∧ (fsLookup fs fp).isSome then
    (fs, .ok ())
  else
    let fs1 := fsUpdate fs tmp delivered.flatten
    match err with
    | some e => (fs1, .error e)
    | none => (fsUpdate (fsRemove fs1 tmp) fp delivered.flatten, .ok ())

/-- The CLI `_stream_hook` (non-interactive essentials): when a non-zero
content length is reported and exceeds the configured maximum, the too-large
error is raised before any chunk is yielded; otherwise the body is streamed
through.  When `interactive` is set the size check is skipped, as in the
source. -/
def streamHookModel (interactive : Bool) (maxFileSize : Option Nat)
    (contentLength : Option Nat) (body : List (List Nat)) :
    List (List Nat) × Option StreamErr :=
  let cl := contentLength.getD 0
  let tooBig : Bool :=
    match maxFileSize with
    | some m => cl > m
    | none => false
  if cl ≠ 0 then
    if ¬interactive ∧ tooBig then ([], some .tooLarge)
    else (body, none)
  else (body, none)

/-- `DCCFile.fetch` composed with the session's stream hook: the hook may
refuse the stream up front (too large), the transport may fail after `k`
chunks (`interruptAfter`), or the download completes. -/
def fetchWithHook (fs : FS) (dir fname : String) (overwrite interactive : Bool)
    (maxFileSize contentLength : Option Nat) (body : List (List Nat))
    (interruptAfter : Option Nat) : FS × Except StreamErr Unit :=
  let hook := streamHookModel interactive maxFileSize contentLength body
  match hook.2 with
  | some e => fetchFS fs dir fname overwrite [] (some e)
  | none =>
    match interruptAfter with
    | some k => fetchFS fs dir fname overwrite (hook.1.take k) (some .transport)
    | none => fetchFS fs dir fname overwrite hook.1 none

/-- `DCCArchive.archive_revision_metadata` on the explicit filesystem: a no-op
when the meta file exists and overwrite is off; otherwise `record.write` emits
`content` into the temp file (or only a partial `written` prefix when
serialisation is interrupted) and the temp file is atomically moved onto the
meta path.  The returned Bool is False when the write was interrupted. -/
def archiveRevisionMetadataFS (fs : FS) (dir : String) (content : List Nat)
    (overwrite : Bool) (writeInterrupt : Option (List Nat)) : FS × Bool :=
  let metaPath := dir ++ "/meta.toml"
  let tmp := dir ++ "/.meta.toml-tmp"
  if (fsLookup fs metaPath).isSome ∧ ¬overwrite then (fs, true)
  else
    match writeInterrupt with
    | some written => (fsUpdate fs tmp written, false)
    | none => (fsUpdate (fsRemove (fsUpdate fs tmp content) tmp) metaPath content, true)

theorem fetchFS_error_inv (fs : FS) (dir fname : String) (ow : Bool)
    (delivered : List (List Nat)) (err : Option StreamErr) (e : StreamErr)
    (h : (fetchFS fs dir fname ow delivered err).2 = .error e) :
    (fetchFS fs dir fname ow delivered err).1
      = fsUpdate fs (tmpPath dir fname) delivered.flatten := by
  unfold fetchFS at h ⊢
  by_cases hc : ¬ow ∧ (fsLookup fs (finalPath dir fname)).isSome
  · rw [if_pos hc] at h
    exact absurd h (by simp)
  · rw [if_neg hc] at h ⊢
    match err with
    | some e1 => rfl
    | none => exact absurd h (by simp)

theorem metaPath_ne_metaTmp (mdir : String) :
    mdir ++ "/meta.toml" ≠ mdir ++ "/.meta.toml-tmp" := by
  intro h
  have hlen := congrArg String.length h
  have h1 : ("/meta.toml" : String).length = 10 := rfl
  have h2 : ("/.meta.toml-tmp" : String).length = 15 := rfl
  simp only [String.length_append, h1, h2] at hlen
  omega

theorem fetchFS_none_ok (fs : FS) (dir fname : String) (ow : Bool)
    (delivered : List (List Nat)) :
    (fetchFS fs dir fname ow delivered none).2 = .ok () := by
  unfold fetchFS
  by_cases hc : ¬ow ∧ (fsLookup fs (finalPath dir fname)).isSome
  · rw [if_pos hc]
  · rw [if_neg hc]

theorem fetchFS_error_preserves (fs : FS) (dir fname : String) (ow : Bool)
    (delivered : List (List Nat)) (err : Option StreamErr) (e : StreamErr)
    (h : (fetchFS fs dir fname ow delivered err).2 = .error e) :
    fsLookup (fetchFS fs dir fname ow delivered err).1 (finalPath dir fname)
        = fsLookup fs (finalPath dir fname) ∧
    ∀ p, p ≠ tmpPath dir fname →
      fsLookup (fetchFS fs dir fname ow delivered err).1 p = fsLookup fs p := by
  rw [fetchFS_error_inv fs dir fname ow delivered err e h]
  constructor
  · exact fsLookup_update_other _ _ _ _ (Ne.symm (tmpPath_ne_finalPath dir fname))
  · intro p hp
    exact fsLookup_update_other _ _ _ _ hp

/-- C1: if a file fetch fails after downloading has begun (a transport error
mid-stream, or the stream hook refusing the download), the final destination
path is untouched — any pre-existing file there keeps its exact content — and
every path other than the same-directory temp file is unchanged; likewise an
interrupted metadata serialisation leaves the meta path and everything except
the metadata temp file unchanged. -/
theorem C1_atomicity (fs : FS) (dir fname : String) (overwrite interactive : Bool)
    (maxFileSize contentLength : Option Nat) (body : List (List Nat))
    (interruptAfter : Option Nat) (mdir : String) (content : List Nat)
    (owm : Bool) (written : List Nat) :
    (∀ e, (fetchWithHook fs dir fname overwrite interactive maxFileSize contentLength body
        interruptAfter).2 = .error e →
      fsLookup (fetchWithHook fs dir fname overwrite interactive maxFileSize contentLength
          body interruptAfter).1 (finalPath dir fname) = fsLookup fs (finalPath dir fname) ∧
      ∀ p, p ≠ tmpPath dir fname →
        fsLookup (fetchWithHook fs dir fname overwrite interactive maxFileSize contentLength
          body interruptAfter).1 p = fsLookup fs p) ∧
    ((archiveRevisionMetadataFS fs mdir content owm (some written)).2 = false →
      fsLookup (archiveRevisionMetadataFS fs mdir content owm (some written)).1
          (mdir ++ "/meta.toml") = fsLookup fs (mdir ++ "/meta.toml") ∧
      ∀ p, p ≠ mdir ++ "/.meta.toml-tmp" →
        fsLookup (archiveRevisionMetadataFS fs mdir content owm (some written)).1 p
          = fsLookup fs p) := by
  constructor
  · intro e he
    simp only [fetchWithHook] at he ⊢
    cases hh : (streamHookModel interactive maxFileSize contentLength body).2 with
    | some e1 =>
      rw [hh] at he
      exact fetchFS_error_preserves _ _ _ _ _ _ e he
    | none =>
      rw [hh] at he
      cases interruptAfter with
      | some k =>
        exact fetchFS_error_preserves _ _ _ _ _ _ e he
      | none =>
        have he2 : (fetchFS fs dir fname overwrite
            (streamHookModel interactive maxFileSize contentLength body).1 none).2
            = .error e := he
        rw [fetchFS_none_ok] at he2
        exact absurd he2 (by simp)
  · intro h2
    unfold archiveRevisionMetadataFS at h2 ⊢
    by_cases hc : (fsLookup fs (mdir ++ "/meta.toml")).isSome ∧ ¬owm
    · rw [if_pos hc] at h2
      exact absurd h2 (by simp)
    · rw [if_neg hc]
      constructor
      · exact fsLookup_update_other _ _ _ _ (metaPath_ne_metaTmp mdir)
      · intro p hp
        exact fsLookup_update_other _ _ _ _ hp

/-- C1 witness: a transport error after one chunk, with overwrite on and a
pre-existing good copy at the final path, leaves that copy untouched. -/
theorem C1_witness :
    fsLookup (fetchWithHook [(finalPath "d" "f", [9])] "d" "f" true false none none
        [[1], [2]] (some 1)).1 (finalPath "d" "f")
      = fsLookup [(finalPath "d" "f", [9])] (finalPath "d" "f") :=
  ((C1_atomicity [(finalPath "d" "f", [9])] "d" "f" true false none none [[1], [2]] (some 1)
    "m" [] false []).1 .transport rfl).1

/-- C5 counterexample: a too-large download against an empty directory raises
the too-large error, yet an (empty) temporary file has been created near the
final path and remains afterwards — contradicting the claim that the error is
raised strictly before the temp file is created and that no partial artifact
exists near the final path. -/
theorem C5_counterexample :
    (fetchWithHook [] "d" "f" false false (some 5) (some 10) [[1, 2]] none).2
        = .error .tooLarge ∧
    fsLookup (fetchWithHook [] "d" "f" false false (some 5) (some 10) [[1, 2]] none).1
        (tmpPath "d" "f") = some [] :=
  ⟨rfl, rfl⟩

/-- C5 (amended): when the transport reports a content length exceeding the
configured maximum (non-interactive, and no cache hit preempts the download),
the too-large error is raised before any chunk is written: zero bytes reach
the final location, the final path and every other pre-existing path are
unchanged — but the temporary file has already been created by then and
remains behind, empty. -/
theorem C5_size_gate (fs : FS) (dir fname : String) (ow : Bool) (m n : Nat)
    (body : List (List Nat)) (ia : Option Nat) (hn : n ≠ 0) (hgt : n > m)
    (hmiss : ¬(¬ow = true ∧ (fsLookup fs (finalPath dir fname)).isSome = true)) :
    (fetchWithHook fs dir fname ow false (some m) (some n) body ia).2
        = .error .tooLarge ∧
    (fetchWithHook fs dir fname ow false (some m) (some n) body ia).1
        = fsUpdate fs (tmpPath dir fname) [] ∧
    fsLookup (fetchWithHook fs dir fname ow false (some m) (some n) body ia).1
        (finalPath dir fname) = fsLookup fs (finalPath dir fname) ∧
    fsLookup (fetchWithHook fs dir fname ow false (some m) (some n) body ia).1
        (tmpPath dir fname) = some [] := by
  have hhook : streamHookModel false (some m) (some n) body = ([], some .tooLarge) := by
    unfold streamHookModel
    simp only [Option.getD_some]
    rw [if_pos hn, if_pos (by simpa using hgt)]
  have hfetch : fetchWithHook fs dir fname ow false (some m) (some n) body ia
      = fetchFS fs dir fname ow [] (some .tooLarge) := by
    simp only [fetchWithHook, hhook]
  have hbody : fetchFS fs dir fname ow [] (some .tooLarge)
      = (fsUpdate fs (tmpPath dir fname) [], .error .tooLarge) := by
    unfold fetchFS
    rw [if_neg (by simpa using hmiss)]
    rfl
  rw [hfetch, hbody]
  refine ⟨rfl, rfl, ?_, ?_⟩
  · exact fsLookup_update_other _ _ _ _ (Ne.symm (tmpPath_ne_finalPath dir fname))
  · exact fsLookup_update_self _ _ _

/-- C5 witness: the amended size-gate theorem evaluated on an empty directory
with limit 5 and reported length 10. -/
theorem C5_witness :
    (fetchWithHook [] "d2" "g" false false (some 5) (some 10) [[1, 2]] none).1
      = fsUpdate [] (tmpPath "d2" "g") [] :=
  (C5_size_gate [] "d2" "g" false 5 10 [[1, 2]] none (by decide) (by decide)
    (by simp [fsLookup])).2.1

/-- Lookup in an association list keyed by DCC numbers. -/
def assocLookup {β : Type} (l : List (DCCNumber × β)) (k : DCCNumber) : Option β :=
  match l with
  | [] => none
  | e :: rest => if e.1 = k then some e.2 else assocLookup rest k

/-- Replace-or-insert in an association list keyed by DCC numbers. -/
def assocStore {β : Type} (l : List (DCCNumber × β)) (k : DCCNumber) (v : β) :
    List (DCCNumber × β) :=
  (k, v) :: l.filter (fun e => e.1 != k)

theorem assocLookup_mem {β : Type} (l : List (DCCNumber × β)) (k : DCCNumber) (v : β)
    (h : assocLookup l k = some v) : (k, v) ∈ l := by
  induction l with
  | nil => exact absurd h (by simp [assocLookup])
  | cons e rest ih =>
    unfold assocLookup at h
    by_cases he : e.1 = k
    · rw [if_pos he] at h
      rw [Option.some_inj] at h
      have hek : e = (k, v) := Prod.ext he h
      rw [← hek]
      exact List.mem_cons_self e rest
    · rw [if_neg he] at h
      exact List.mem_cons_of_mem e (ih h)

theorem assocLookup_store_self {β : Type} (l : List (DCCNumber × β)) (k : DCCNumber) (v : β) :
    assocLookup (assocStore l k v) k = some v := by
  simp [assocStore, assocLookup]

theorem assocLookup_store_isSome {β : Type} (l : List (DCCNumber × β)) (k q : DCCNumber)
    (v : β) (h : (assocLookup l q).isSome = true) :
    (assocLookup (assocStore l k v) q).isSome = true := by
  by_cases hkq : k = q
  · subst hkq
    rw [assocLookup_store_self]
    rfl
  · have hq : assocLookup (assocStore l k v) q = assocLookup (l.filter (fun e => e.1 != k)) q := by
      rw [show assocLookup (assocStore l k v) q
          = if k = q then some v else assocLookup (l.filter (fun e => e.1 != k)) q from rfl,
        if_neg hkq]
    rw [hq]
    have : ∀ (l1 : List (DCCNumber × β)), (assocLookup l1 q).isSome = true →
        (assocLookup (l1.filter (fun e => e.1 != k)) q).isSome = true := by
      intro l1
      induction l1 with
      | nil => intro h1; exact h1
      | cons e rest ih =>
        intro h1
        unfold assocLookup at h1
        by_cases he : e.1 = q
        · have hek : (e.1 != k) = true := by
            rw [he]
            exact bne_iff_ne.mpr (fun hh => hkq hh.symm)
          rw [List.filter_cons, if_pos hek]
          unfold assocLookup
          rw [if_pos he]
          rfl
        · rw [if_neg he] at h1
          rw [List.filter_cons]
          by_cases hek : (e.1 != k) = true
          · rw [if_pos hek]
            unfold assocLookup
            rw [if_neg he]
            exact ih h1
          · rw [if_neg hek]
            exact ih h1
    exact this l h

/-- The on-disk archive: serialised revision metadata keyed by versioned DCC
number, and the attachment files present in each revision directory. -/
structure ArchiveState where
  metas : List (DCCNumber × MetaDict)
  dataFiles : List (DCCNumber × List String)
deriving DecidableEq, Repr

/-- Whether the meta file for this exact revision exists
(`revision_meta_path(...).exists()` / `.is_file()`). -/
def lookupMeta (st : ArchiveState) (k : DCCNumber) : Option MetaDict :=
  assocLookup st.metas k

/-- `archive_revision_metadata`'s atomic write of the serialised record. -/
def storeMeta (st : ArchiveState) (k : DCCNumber) (m : MetaDict) : ArchiveState :=
  { st with metas := assocStore st.metas k m }

/-- The attachment files present in the revision directory of `k`. -/
def filesAt (st : ArchiveState) (k : DCCNumber) : List String :=
  (assocLookup st.dataFiles k).getD []

/-- The revision directory path used by `revisions`/`discover_files` (the
directory layout `root/<doc>/<rev>`). -/
def revDirPath (archiveDir : String) (k : DCCNumber) : String :=
  documentDirStr archiveDir k ++ "/" ++ strOfList (k.format true)

/-- Same document: equal category and numeric (version ignored). -/
def sameDocB (a b : DCCNumber) : Bool :=
  (a.category == b.category) && (a.numeric == b.numeric)

/-- The archived revisions of the document of `num` (the second-level
subdirectories of its document directory). -/
def revisionsOf (st : ArchiveState) (num : DCCNumber) : List (DCCNumber × MetaDict) :=
  st.metas.filter (fun e => sameDocB e.1 num)

/-- `DCCArchive.revisions`: read every archived revision of the document,
propagating the first read error. -/
def readRevisions (archiveDir : String) (st : ArchiveState) :
    List (DCCNumber × MetaDict) → Except String (List DCCRecord)
  | [] => .ok []
  | e :: rest =>
    match recordRead e.2 (revDirPath archiveDir e.1) (filesAt st e.1) with
    | .error err => .error err
    | .ok r =>
      match readRevisions archiveDir st rest with
      | .error err => .error err
      | .ok rs => .ok (r :: rs)

/-- Python's `max(records, key=lambda record: record.dcc_number)`: fold keeping
the current best, replacing it when `key(x) > key(best)`. -/
def pyMaxFold (best : DCCRecord) : List DCCRecord → Except String DCCRecord
  | [] => .ok best
  | r :: rs =>
    match pyGreaterThan r.dcc_number best.dcc_number with
    | .error e => .error e
    | .ok true => pyMaxFold r rs
    | .ok false => pyMaxFold best rs

/-- `DCCArchive.latest_revision`: the archived revision with the greatest
version, or `none` when the document has no archived revision (the
`FileNotFoundError` case caught by `fetch_record`). -/
def latestRevisionModel (archiveDir : String) (st : ArchiveState) (num : DCCNumber) :
    Except String (Option DCCRecord) :=
  match readRevisions archiveDir st (revisionsOf st num) with
  | .error e => .error e
  | .ok [] => .ok none
  | .ok (r :: rs) =>
    match pyMaxFold r rs with
    | .error e => .error e
    | .ok best => .ok (some best)

/-- `DCCRecord.discover_files` against a revision directory: set `local_path`
for each attached file physically present there. -/
def discoverFiles (r : DCCRecord) (dir : String) (present : List String) : DCCRecord :=
  { r with files := r.files.map (fun f =>
      if f.filename ∈ present
      then { f with local_path := some (dir ++ "/" ++ f.filename) }
      else f) }

/-- Step 1 and 2 of `fetch_record`: the record taken from the local archive, if
any.  Versionless: with `ignore_version` the latest archived revision (none on
a cache miss); without it, never.  Versioned: the archived revision at that
exact version unless `overwrite` is set. -/
def resolveCached (archiveDir : String) (st : ArchiveState) (num : DCCNumber)
    (ignore_version overwrite : Bool) : Except String (Option DCCRecord) :=
  match num.version with
  | none =>
    if ignore_version then latestRevisionModel archiveDir st num
    else .ok none
  | some _ =>
    if ¬overwrite then
      match lookupMeta st num with
      | some m =>
        match recordRead m (revDirPath archiveDir num) (filesAt st num) with
        | .error e => .error e
        | .ok r => .ok (some r)
      | none => .ok none
    else .ok none

/-- `DCCRecord.fetch_files` (success path): fetch each attachment in order,
counting the file-content session calls (cache hits cost none). -/
def fetchFilesFold (dir : String) (present : List String) (overwrite : Bool) :
    List DCCFile → List DCCFile × List String × Nat
  | [] => ([], present, 0)
  | f :: rest =>
    let step := DCCFile.fetchSimple f dir present overwrite
    let next := fetchFilesFold dir step.2.1 overwrite rest
    (step.1 :: next.1, next.2.1, step.2.2 + next.2.2)

/-- `DCCArchive.fetch_record`: the central decision procedure.  Returns the
outcome, the resulting archive state, the number of record-page session calls
and the number of file-content session calls. -/
def fetchRecordModel (archiveDir : String) (st : ArchiveState)
    (remote : DCCNumber → ParsedPage) (num : DCCNumber)
    (ignore_version overwrite fetch_files : Bool) :
    Except String DCCRecord × ArchiveState × Nat × Nat :=
  match resolveCached archiveDir st num ignore_version overwrite with
  | .error e => (.error e, st, 0, 0)
  | .ok cached =>
    let fetched : Except String DCCRecord × Nat :=
      match cached with
      | some r => (.ok r, 0)
      | none => (DCCRecord.fetchModel num (remote num), 1)
    match fetched.1 with
    | .error e => (.error e, st, fetched.2, 0)
    | .ok r =>
      match r.dcc_number.version with
      | none => (.error "NoVersionError", st, fetched.2, 0)
      | some _ =>
        let dir := revDirPath archiveDir r.dcc_number
        let r1 := discoverFiles r dir (filesAt st r.dcc_number)
        let st1 :=
          if (lookupMeta st r1.dcc_number).isSome ∧ ¬overwrite then st
          else storeMeta st r1.dcc_number (recordWrite r1)
        if fetch_files then
          let res := fetchFilesFold dir (filesAt st1 r1.dcc_number) overwrite r1.files
          let st2 := { st1 with dataFiles := assocStore st1.dataFiles r1.dcc_number res.2.1 }
          (.ok { r1 with files := res.1 }, st2, fetched.2, res.2.2)
        else
          (.ok r1, st1, fetched.2, 0)

/-- The archive invariant maintained by `fetch_record`: every stored meta sits
under the key it describes, and every key carries a version (revision meta
paths require one). -/
def ArchiveWF (st : ArchiveState) : Prop :=
  (∀ e ∈ st.metas, e.2.dcc_number = e.1) ∧ (∀ e ∈ st.metas, e.1.version.isSome = true)

instance (st : ArchiveState) : Decidable (ArchiveWF st) := by
  unfold ArchiveWF
  infer_instance

theorem validateNumber_ok_eq (d d1 : DCCNumber) (h : validateNumber d = .ok d1) : d1 = d := by
  unfold validateNumber at h
  by_cases h1 : d.category ∉ letters
  · rw [if_pos h1] at h
    exact absurd h (by simp)
  · rw [if_neg h1] at h
    by_cases h2 : ¬ pyIsDigitStr d.numeric
    · rw [if_pos h2] at h
      exact absurd h (by simp)
    · rw [if_neg h2] at h
      injection h with h3
      exact h3.symm

theorem mkDCCRecord_number (n : DCCNumber) (t : Option String) (a : Option (List DCCAuthor))
    (ab : Option String) (kw : Option (List String)) (nt pub : Option String)
    (j : Option DCCJournalRef) (o : Option (List Nat)) (cd crd mrd : Option Int)
    (f : Option (List DCCFile)) (rb rt : Option (List DCCNumber)) (r : DCCRecord)
    (h : mkDCCRecord n t a ab kw nt pub j o cd crd mrd f rb rt = .ok r) :
    r.dcc_number = n := by
  unfold mkDCCRecord recordPostInit at h
  simp only at h
  cases hv : validateNumber n with
  | error e =>
    rw [hv] at h
    exact absurd h (by simp)
  | ok n1 =>
    rw [hv] at h
    injection h with h2
    rw [← h2]
    exact validateNumber_ok_eq n n1 hv

theorem recordRead_number (m : MetaDict) (dir : String) (present : List String)
    (r : DCCRecord) (h : recordRead m dir present = .ok r) :
    r.dcc_number = m.dcc_number := by
  unfold recordRead at h
  cases hv : validateNumber m.dcc_number with
  | error e =>
    rw [hv] at h
    exact absurd h (by simp)
  | ok num =>
    rw [hv] at h
    simp only at h
    cases hr : validateNumbers m.referenced_by with
    | error e =>
      rw [hr] at h
      exact absurd h (by simp)
    | ok refs =>
      rw [hr] at h
      cases hr2 : validateNumbers m.related_to with
      | error e =>
        rw [hr2] at h
        exact absurd h (by simp)
      | ok rels =>
        rw [hr2] at h
        rw [mkDCCRecord_number _ _ _ _ _ _ _ _ _ _ _ _ _ _ _ _ h]
        exact validateNumber_ok_eq _ _ hv

theorem pyGreaterThan_some (a b : DCCNumber) (va vb : Nat) (hva : a.version = some va)
    (hvb : b.version = some vb) (hc : a.category = b.category) (hn : a.numeric = b.numeric) :
    pyGreaterThan a b = .ok (decide (va > vb)) := by
  obtain ⟨ac, an, av⟩ := a
  obtain ⟨bc, bn, bv⟩ := b
  simp only at hva hvb hc hn
  subst hva; subst hvb; subst hc; subst hn
  simp [pyGreaterThan, DCCNumber.gtMethod]


theorem readRevisions_mem_target (archiveDir : String) (st : ArchiveState)
    (entries : List (DCCNumber × MetaDict)) (l : List DCCRecord)
    (h : readRevisions archiveDir st entries = .ok l) :
    ∀ x ∈ l, ∃ e ∈ entries,
      recordRead e.2 (revDirPath archiveDir e.1) (filesAt st e.1) = .ok x := by
  induction entries generalizing l with
  | nil =>
    injection h with h1
    subst h1
    intro x hx
    exact absurd hx (by simp)
  | cons e rest ih =>
    unfold readRevisions at h
    cases hr : recordRead e.2 (revDirPath archiveDir e.1) (filesAt st e.1) with
    | error err =>
      rw [hr] at h
      exact absurd h (by simp)
    | ok r =>
      rw [hr] at h
      cases hrest : readRevisions archiveDir st rest with
      | error err =>
        rw [hrest] at h
        exact absurd h (by simp)
      | ok rs =>
        rw [hrest] at h
        injection h with h1
        subst h1
        intro x hx
        rcases List.mem_cons.mp hx with rfl | hx
        · exact ⟨e, by simp, hr⟩
        · obtain ⟨e1, he1, hre1⟩ := ih rs hrest x hx
          exact ⟨e1, by simp [he1], hre1⟩

theorem readRevisions_mem_source (archiveDir : String) (st : ArchiveState)
    (entries : List (DCCNumber × MetaDict)) (l : List DCCRecord)
    (h : readRevisions archiveDir st entries = .ok l) :
    ∀ e ∈ entries, ∃ x ∈ l,
      recordRead e.2 (revDirPath archiveDir e.1) (filesAt st e.1) = .ok x := by
  induction entries generalizing l with
  | nil =>
    intro e he
    exact absurd he (by simp)
  | cons e rest ih =>
    unfold readRevisions at h
    cases hr : recordRead e.2 (revDirPath archiveDir e.1) (filesAt st e.1) with
    | error err =>
      rw [hr] at h
      exact absurd h (by simp)
    | ok r =>
      rw [hr] at h
      cases hrest : readRevisions archiveDir st rest with
      | error err =>
        rw [hrest] at h
        exact absurd h (by simp)
      | ok rs =>
        rw [hrest] at h
        injection h with h1
        subst h1
        intro e1 he1
        rcases List.mem_cons.mp he1 with rfl | he1
        · exact ⟨r, by simp, hr⟩
        · obtain ⟨x, hx, hrx⟩ := ih rs hrest e1 he1
          exact ⟨x, by simp [hx], hrx⟩

theorem fetchModel_number (num : DCCNumber) (page : ParsedPage) (r : DCCRecord)
    (hv : num.version.isSome = true)
    (h : DCCRecord.fetchModel num page = .ok r) : r.dcc_number = num := by
  unfold DCCRecord.fetchModel at h
  split at h
  · exact absurd h (by simp)
  · next parsed hvn =>
    split at h
    · exact absurd h (by simp)
    · next hmis =>
      split at h
      · exact absurd h (by simp)
      · next hver =>
        simp only at h
        split at h
        · exact absurd h (by simp)
        · next refs hp1 =>
          split at h
          · exact absurd h (by simp)
          · next rels hp2 =>
            have hnum := mkDCCRecord_number _ _ _ _ _ _ _ _ _ _ _ _ _ _ _ _ h
            push_neg at hmis hver
            have hveq : parsed.version = num.version := by
              apply hver
              intro h0
              rw [h0] at hv
              exact absurd hv (by simp)
            rw [hnum]
            obtain ⟨pc, pn, pv⟩ := parsed
            obtain ⟨nc, nn, nv⟩ := num
            simp only at hmis hveq
            simp only [DCCNumber.mk.injEq]
            exact ⟨hmis.1, hmis.2, hveq⟩

theorem pyMaxFold_le (rs : List DCCRecord) : ∀ (best b : DCCRecord),
    (∀ x ∈ best :: rs, (x.dcc_number.version).isSome = true) →
    (∀ x ∈ best :: rs, x.dcc_number.category = best.dcc_number.category
      ∧ x.dcc_number.numeric = best.dcc_number.numeric) →
    pyMaxFold best rs = .ok b →
    b ∈ best :: rs ∧ ∀ x ∈ best :: rs,
      x.dcc_number.version.getD 0 ≤ b.dcc_number.version.getD 0 := by
  induction rs with
  | nil =>
    intro best b hall hsame h
    injection h with h1
    subst h1
    refine ⟨by simp, ?_⟩
    intro x hx
    simp only [List.mem_singleton] at hx
    subst hx
    exact le_refl _
  | cons r rs ih =>
    intro best b hall hsame h
    obtain ⟨vb, hvb⟩ := Option.isSome_iff_exists.mp (hall best (by simp))
    obtain ⟨vr, hvr⟩ := Option.isSome_iff_exists.mp (hall r (by simp))
    obtain ⟨hrc, hrn⟩ := hsame r (by simp)
    have hgt := pyGreaterThan_some r.dcc_number best.dcc_number vr vb hvr hvb hrc hrn
    unfold pyMaxFold at h
    rw [hgt] at h
    by_cases hvv : vr > vb
    · rw [decide_eq_true hvv] at h
      have h2 : pyMaxFold r rs = .ok b := h
      have hall2 : ∀ x ∈ r :: rs, (x.dcc_number.version).isSome = true := by
        intro x hx
        rcases List.mem_cons.mp hx with hh | hh
        · subst hh
          exact hall x (by simp)
        · exact hall x (by simp [hh])
      have hsame2 : ∀ x ∈ r :: rs, x.dcc_number.category = r.dcc_number.category
          ∧ x.dcc_number.numeric = r.dcc_number.numeric := by
        intro x hx
        rcases List.mem_cons.mp hx with hh | hh
        · subst hh
          exact ⟨rfl, rfl⟩
        · obtain ⟨hc1, hn1⟩ := hsame x (by simp [hh])
          exact ⟨hc1.trans hrc.symm, hn1.trans hrn.symm⟩
      obtain ⟨hbmem, hbnd⟩ := ih r b hall2 hsame2 h2
      have hbr : vr ≤ b.dcc_number.version.getD 0 := by
        have hh := hbnd r (by simp)
        rw [hvr] at hh
        simpa using hh
      refine ⟨List.mem_cons_of_mem best hbmem, ?_⟩
      intro x hx
      rcases List.mem_cons.mp hx with hh | hh
      · subst hh
        rw [hvb]
        simp only [Option.getD_some]
        omega
      · exact hbnd x hh
    · rw [decide_eq_false hvv] at h
      have h2 : pyMaxFold best rs = .ok b := h
      have hall2 : ∀ x ∈ best :: rs, (x.dcc_number.version).isSome = true := by
        intro x hx
        rcases List.mem_cons.mp hx with hh | hh
        · subst hh
          exact hall x (by simp)
        · exact hall x (by simp [hh])
      have hsame2 : ∀ x ∈ best :: rs, x.dcc_number.category = best.dcc_number.category
          ∧ x.dcc_number.numeric = best.dcc_number.numeric := by
        intro x hx
        rcases List.mem_cons.mp hx with hh | hh
        · subst hh
          exact ⟨rfl, rfl⟩
        · exact hsame x (by simp [hh])
      obtain ⟨hbmem, hbnd⟩ := ih best b hall2 hsame2 h2
      have hbb : vb ≤ b.dcc_number.version.getD 0 := by
        have hh := hbnd best (by simp)
        rw [hvb] at hh
        simpa using hh
      have hbmem2 : b ∈ best :: r :: rs := by
        rcases List.mem_cons.mp hbmem with hh | hh
        · subst hh
          simp
        · exact List.mem_cons_of_mem best (List.mem_cons_of_mem r hh)
      refine ⟨hbmem2, ?_⟩
      intro x hx
      rcases List.mem_cons.mp hx with hh | hh
      · subst hh
        rw [hvb]
        simpa using hbb
      · rcases List.mem_cons.mp hh with hh2 | hh2
        · subst hh2
          rw [hvr]
          simp only [Option.getD_some]
          omega
        · exact hbnd x (List.mem_cons_of_mem best hh2)

theorem latestRevision_spec (archiveDir : String) (st : ArchiveState) (num : DCCNumber)
    (r : DCCRecord) (hwf : ArchiveWF st)
    (h : latestRevisionModel archiveDir st num = .ok (some r)) :
    (r.dcc_number.version).isSome = true ∧
    (∀ e ∈ st.metas, sameDocB e.1 num = true →
      e.1.version.getD 0 ≤ r.dcc_number.version.getD 0) := by
  obtain ⟨hkey, hver⟩ := hwf
  unfold latestRevisionModel at h
  cases hread : readRevisions archiveDir st (revisionsOf st num) with
  | error e =>
    rw [hread] at h
    exact absurd h (by simp)
  | ok l =>
    rw [hread] at h
    cases l with
    | nil => exact absurd h (by simp)
    | cons r0 rest =>
      have h2 : (match pyMaxFold r0 rest with
          | Except.error e => (Except.error e : Except String (Option DCCRecord))
          | Except.ok best => Except.ok (some best)) = Except.ok (some r) := h
      cases hfold : pyMaxFold r0 rest with
      | error e =>
        rw [hfold] at h2
        exact absurd h2 (by simp)
      | ok best =>
        rw [hfold] at h2
        have hbr : best = r := by
          injection h2 with h1
          exact Option.some_inj.mp h1
        rw [← hbr]
        have hrecnum : ∀ x ∈ r0 :: rest, ∃ e ∈ st.metas,
            sameDocB e.1 num = true ∧ x.dcc_number = e.1 := by
          intro x hx
          obtain ⟨e, he, hrd⟩ := readRevisions_mem_target archiveDir st _ _ hread x hx
          have hmem := List.mem_filter.mp he
          have hn := recordRead_number _ _ _ _ hrd
          exact ⟨e, hmem.1, hmem.2, by rw [hn, hkey e hmem.1]⟩
        have hallver : ∀ x ∈ r0 :: rest, (x.dcc_number.version).isSome = true := by
          intro x hx
          obtain ⟨e, hemem, _, hxnum⟩ := hrecnum x hx
          rw [hxnum]
          exact hver e hemem
        have hsame : ∀ x ∈ r0 :: rest, x.dcc_number.category = r0.dcc_number.category
            ∧ x.dcc_number.numeric = r0.dcc_number.numeric := by
          have hdoc : ∀ x ∈ r0 :: rest, x.dcc_number.category = num.category
              ∧ x.dcc_number.numeric = num.numeric := by
            intro x hx
            obtain ⟨e, _, hsd, hxnum⟩ := hrecnum x hx
            unfold sameDocB at hsd
            rw [Bool.and_eq_true, beq_iff_eq, beq_iff_eq] at hsd
            rw [hxnum]
            exact hsd
          intro x hx
          obtain ⟨hx1, hx2⟩ := hdoc x hx
          obtain ⟨h01, h02⟩ := hdoc r0 (by simp)
          exact ⟨hx1.trans h01.symm, hx2.trans h02.symm⟩
        obtain ⟨hbmem, hbnd⟩ := pyMaxFold_le rest r0 best hallver hsame hfold
        constructor
        · exact hallver best hbmem
        · intro e hemem hesame
          have hein : e ∈ revisionsOf st num := List.mem_filter.mpr ⟨hemem, hesame⟩
          obtain ⟨x, hx, hrd⟩ := readRevisions_mem_source archiveDir st _ _ hread e hein
          have hxnum := recordRead_number _ _ _ _ hrd
          have hxkey : x.dcc_number = e.1 := by rw [hxnum, hkey e hemem]
          have hxle := hbnd x hx
          rw [hxkey] at hxle
          exact hxle

theorem fetchRecord_remote_count (archiveDir : String) (st : ArchiveState)
    (remote : DCCNumber → ParsedPage) (num : DCCNumber) (iv ow ff : Bool)
    (hres : resolveCached archiveDir st num iv ow = .ok none) :
    (fetchRecordModel archiveDir st remote num iv ow ff).2.2.1 = 1 := by
  simp only [fetchRecordModel, hres]
  cases hfm : DCCRecord.fetchModel num (remote num) with
  | error e => simp
  | ok r1 =>
    simp only
    cases hr1v : r1.dcc_number.version with
    | none => simp
    | some vv =>
      simp only
      cases ff with
      | true => simp
      | false => simp

/-- C2: for a versionless identifier, `fetch_record` with `ignore_version`
returns the cached revision with the highest version (zero session calls of
either kind) when one is archived; on a cache miss, or with `ignore_version`
off, exactly one remote record fetch is performed. -/
theorem C2_versionless_fetch (archiveDir : String) (st : ArchiveState)
    (remote : DCCNumber → ParsedPage) (num : DCCNumber) (overwrite : Bool)
    (hv : num.version = none) :
    (∀ r, ArchiveWF st → latestRevisionModel archiveDir st num = .ok (some r) →
      (fetchRecordModel archiveDir st remote num true overwrite false).1
          = .ok (discoverFiles r (revDirPath archiveDir r.dcc_number)
              (filesAt st r.dcc_number)) ∧
      (fetchRecordModel archiveDir st remote num true overwrite false).2.2.1 = 0 ∧
      (fetchRecordModel archiveDir st remote num true overwrite false).2.2.2 = 0 ∧
      (∀ e ∈ st.metas, sameDocB e.1 num = true →
        e.1.version.getD 0 ≤ r.dcc_number.version.getD 0)) ∧
    (∀ ff, latestRevisionModel archiveDir st num = .ok none →
      (fetchRecordModel archiveDir st remote num true overwrite ff).2.2.1 = 1) ∧
    (∀ ff, (fetchRecordModel archiveDir st remote num false overwrite ff).2.2.1 = 1) := by
  refine ⟨?_, ?_, ?_⟩
  · intro r hwf hlat
    obtain ⟨hrv, hmax⟩ := latestRevision_spec archiveDir st num r hwf hlat
    have hres : resolveCached archiveDir st num true overwrite = .ok (some r) := by
      unfold resolveCached
      rw [hv]
      exact hlat
    obtain ⟨vv, hvv⟩ := Option.isSome_iff_exists.mp hrv
    refine ⟨?_, ?_, ?_, hmax⟩ <;>
      simp only [fetchRecordModel, hres] <;>
      rw [hvv] <;>
      simp
  · intro ff hlat
    have hres : resolveCached archiveDir st num true overwrite = .ok none := by
      unfold resolveCached
      rw [hv]
      exact hlat
    exact fetchRecord_remote_count archiveDir st remote num true overwrite ff hres
  · intro ff
    have hres : resolveCached archiveDir st num false overwrite = .ok none := by
      unfold resolveCached
      rw [hv]
      rfl
    exact fetchRecord_remote_count archiveDir st remote num false overwrite ff hres

theorem fetchRecord_count_cases (archiveDir : String) (st : ArchiveState)
    (remote : DCCNumber → ParsedPage) (num : DCCNumber) (iv ow ff : Bool) :
    (fetchRecordModel archiveDir st remote num iv ow ff).2.2.1
      = (match resolveCached archiveDir st num iv ow with
         | .ok none => 1
         | _ => 0) := by
  cases hres : resolveCached archiveDir st num iv ow with
  | error e => simp [fetchRecordModel, hres]
  | ok cached =>
    cases cached with
    | none =>
      rw [fetchRecord_remote_count archiveDir st remote num iv ow ff hres]
    | some rc =>
      simp only [fetchRecordModel, hres]
      cases hrcv : rc.dcc_number.version with
      | none => simp
      | some vv =>
        simp only
        cases ff <;> simp

theorem fetchRecord_count_le_one (archiveDir : String) (st : ArchiveState)
    (remote : DCCNumber → ParsedPage) (num : DCCNumber) (iv ow ff : Bool) :
    (fetchRecordModel archiveDir st remote num iv ow ff).2.2.1 ≤ 1 := by
  rw [fetchRecord_count_cases]
  cases resolveCached archiveDir st num iv ow with
  | error e => simp
  | ok cached => cases cached <;> simp

theorem fetchRecord_count_zero_of_meta (archiveDir : String) (st : ArchiveState)
    (remote : DCCNumber → ParsedPage) (num : DCCNumber) (v : Nat) (iv ff : Bool)
    (hv : num.version = some v) (hm : (lookupMeta st num).isSome = true) :
    (fetchRecordModel archiveDir st remote num iv false ff).2.2.1 = 0 := by
  rw [fetchRecord_count_cases]
  obtain ⟨m, hm2⟩ := Option.isSome_iff_exists.mp hm
  unfold resolveCached
  rw [hv]
  simp only [hm2]
  cases hread : recordRead m (revDirPath archiveDir num) (filesAt st num) with
  | error e => simp
  | ok r => simp

/-- C3: for a fully-versioned identifier with `overwrite=false`, a cached
revision at that exact version is used without contacting the record source,
and two successive `fetch_record` calls make at most one record fetch in
total; with `overwrite=true`, `fetch_record` always fetches remotely and
replaces the archived revision metadata. -/
theorem C3_versioned_fetch (archiveDir : String) (st : ArchiveState)
    (remote : DCCNumber → ParsedPage) (num : DCCNumber) (v : Nat) (iv : Bool)
    (hv : num.version = some v) :
    (∀ m r, ArchiveWF st → lookupMeta st num = some m →
      recordRead m (revDirPath archiveDir num) (filesAt st num) = .ok r →
      (fetchRecordModel archiveDir st remote num iv false false).1
          = .ok (discoverFiles r (revDirPath archiveDir r.dcc_number)
              (filesAt st r.dcc_number)) ∧
      (fetchRecordModel archiveDir st remote num iv false false).2.2.1 = 0) ∧
    (∀ r1, (fetchRecordModel archiveDir st remote num iv false false).1 = .ok r1 →
      (fetchRecordModel archiveDir st remote num iv false false).2.2.1 +
        (fetchRecordModel archiveDir
          (fetchRecordModel archiveDir st remote num iv false false).2.1
          remote num iv false false).2.2.1 ≤ 1) ∧
    ((fetchRecordModel archiveDir st remote num iv true false).2.2.1 = 1 ∧
      ∀ r, (fetchRecordModel archiveDir st remote num iv true false).1 = .ok r →
        lookupMeta (fetchRecordModel archiveDir st remote num iv true false).2.1 num
          = some (recordWrite r)) := by
  refine ⟨?_, ?_, ?_⟩
  · intro m r hwf hm hrd
    have hres : resolveCached archiveDir st num iv false = .ok (some r) := by
      unfold resolveCached
      rw [hv]
      simp only [hm, hrd]
      rfl
    have hmmem := assocLookup_mem st.metas num m hm
    have hrnum : r.dcc_number = num := by
      rw [recordRead_number _ _ _ _ hrd]
      exact hwf.1 (num, m) hmmem
    have hrvv : r.dcc_number.version = some v := by rw [hrnum, hv]
    constructor <;>
      simp only [fetchRecordModel, hres] <;> rw [hrvv] <;> simp
  · intro r1 hok
    cases hres : resolveCached archiveDir st num iv false with
    | error e =>
      simp only [fetchRecordModel, hres] at hok
      exact absurd hok (by simp)
    | ok cached =>
      cases cached with
      | some rc =>
        have hc1 : (fetchRecordModel archiveDir st remote num iv false false).2.2.1 = 0 := by
          rw [fetchRecord_count_cases, hres]
        rw [hc1]
        have hle := fetchRecord_count_le_one archiveDir
          (fetchRecordModel archiveDir st remote num iv false false).2.1 remote num iv false false
        omega
      | none =>
        have hc1 : (fetchRecordModel archiveDir st remote num iv false false).2.2.1 = 1 := by
          rw [fetchRecord_count_cases, hres]
        cases hfm : DCCRecord.fetchModel num (remote num) with
        | error e =>
          simp only [fetchRecordModel, hres, hfm] at hok
          exact absurd hok (by simp)
        | ok rf =>
          have hrfnum : rf.dcc_number = num :=
            fetchModel_number num (remote num) rf (by rw [hv]; rfl) hfm
          have hrfv : rf.dcc_number.version = some v := by rw [hrfnum, hv]
          have hpresent : (lookupMeta
              (fetchRecordModel archiveDir st remote num iv false false).2.1 num).isSome
              = true := by
            simp only [fetchRecordModel, hres, hfm]
            rw [hrfv]
            by_cases hc : (lookupMeta st num).isSome = true
            · simp [discoverFiles, hrfnum, hc]
            · simp [discoverFiles, hrfnum, lookupMeta, storeMeta]
              rw [if_neg (show ¬((assocLookup st.metas num).isSome = true) from hc)]
              simp [assocLookup_store_self]
          have hc2 := fetchRecord_count_zero_of_meta archiveDir
            (fetchRecordModel archiveDir st remote num iv false false).2.1 remote num v iv
            false hv hpresent
          rw [hc1, hc2]
  · have hres : resolveCached archiveDir st num iv true = .ok none := by
      unfold resolveCached
      rw [hv]
      rfl
    constructor
    · exact fetchRecord_remote_count archiveDir st remote num iv true false hres
    · intro r hok
      cases hfm : DCCRecord.fetchModel num (remote num) with
      | error e =>
        simp only [fetchRecordModel, hres, hfm] at hok
        exact absurd hok (by simp)
      | ok rf =>
        have hrfnum : rf.dcc_number = num :=
          fetchModel_number num (remote num) rf (by rw [hv]; rfl) hfm
        have hrfv : rf.dcc_number.version = some v := by rw [hrfnum, hv]
        simp only [fetchRecordModel, hres, hfm] at hok ⊢
        rw [hrfv] at hok ⊢
        simp only [discoverFiles, hrfnum] at hok ⊢
        simp at hok ⊢
        subst hok
        simp [lookupMeta, storeMeta, assocLookup_store_self]

/-- C2 witness: with `T1-v2` archived, fetching versionless `T1` with
`ignore_version` makes zero record-page session calls. -/
theorem C2_witness :
    (fetchRecordModel "a" ⟨[(⟨'T', ['1'], some 2⟩,
        ⟨⟨'T', ['1'], some 2⟩, none, [], none, none, none, none, none, [], none, none, none,
          [], [], []⟩)], []⟩ (fun _ => endToEndPage) ⟨'T', ['1'], none⟩ true false false).2.2.1
      = 0 :=
  ((C2_versionless_fetch "a" ⟨[(⟨'T', ['1'], some 2⟩,
      ⟨⟨'T', ['1'], some 2⟩, none, [], none, none, none, none, none, [], none, none, none,
        [], [], []⟩)], []⟩ (fun _ => endToEndPage) ⟨'T', ['1'], none⟩ false rfl).1
    ⟨⟨'T', ['1'], some 2⟩, none, [], none, none, none, none, none, [], none, none, none,
      [], [], []⟩
    (by decide) rfl).2.1

/-- C3 witness: with `T1-v2` archived, fetching `T1-v2` with `overwrite=false`
makes zero record-page session calls. -/
theorem C3_witness :
    (fetchRecordModel "a" ⟨[(⟨'T', ['1'], some 2⟩,
        ⟨⟨'T', ['1'], some 2⟩, none, [], none, none, none, none, none, [], none, none, none,
          [], [], []⟩)], []⟩ (fun _ => endToEndPage) ⟨'T', ['1'], some 2⟩ false false
        false).2.2.1 = 0 :=
  ((C3_versioned_fetch "a" ⟨[(⟨'T', ['1'], some 2⟩,
      ⟨⟨'T', ['1'], some 2⟩, none, [], none, none, none, none, none, [], none, none, none,
        [], [], []⟩)], []⟩ (fun _ => endToEndPage) ⟨'T', ['1'], some 2⟩ 2 false rfl).1
    ⟨⟨'T', ['1'], some 2⟩, none, [], none, none, none, none, none, [], none, none, none,
      [], [], []⟩
    ⟨⟨'T', ['1'], some 2⟩, none, [], none, none, none, none, none, [], none, none, none,
      [], [], []⟩
    (by decide) rfl rfl).2
